import Mathlib

/-!
A shallow embedding of `merger_automatic_Nov4_versions.C`, a ROOT macro that
merges the `PairGen.root` files found in the sub-directories of the working
directory into one `PairGenMerged.root`, preserving the first (reference)
file's directory structure.

Modelling conventions:
* A ROOT object is an `RObject`: a histogram (`TH1`-like, up to 3 axes, with
  per-bin content and error), a numeric `TParameter`, a `TTree` (a sequence of
  rows), a nested `TDirectory`, or any other object kind (copied verbatim).
* Double-precision values are modelled as rationals (`ℚ`); the stored bin
  error, which the code computes with `std::sqrt`, is modelled as a real.
* A histogram's contents are a total function on bin coordinates; the merge
  loop only ever reads and writes coordinates inside the code's loop ranges
  (`0 .. GetNbinsX()+1` per axis, guard bins included).
* `TDirectory::Get`/`GetDirectory` on a file handle are modelled as pure
  lookups in that handle's key tree; the unchecked C-style pointer casts of
  the source are modelled as checked downcasts that yield the object's
  numeric payload (inputs are assumed structurally homologous, as the spec's
  data model states).
* `std::cerr` reporting is modelled as a list of log messages produced by the
  merge, and closing of file handles as fields of the driver's result.
* Record contents and write placement are modelled separately: `mergeObj…`
  computes each merged record from the inputs, while `writePaths…` and
  `rootWritePaths` model where each write lands, making explicit the
  implicit current-directory cursor the source writes through (the nested
  histogram branch performs no `cd()`, the subdirectory branch does not
  restore the cursor after recursing).
* The numeric payload read through the `(TParameter<double>*)` cast is
  idealised as the stored value; the source performs no conversion for the
  `Long64_t`/`int`/`float` subtypes (see `castGetValD`).
-/

namespace PairGenMerge

/-- The numeric subtypes of `TParameter` that the dispatch recognises
(`TParameter<Long64_t>`, `<int>`, `<double>`, `<float>`). -/
inductive NumType where
  | long64
  | intT
  | floatT
  | doubleT
deriving DecidableEq

/-- A `TH1`-like histogram: name, per-axis declared bin counts
(`GetNbinsX/Y/Z`), per-axis bin edges (carried by `Clone`, untouched by the
merge), per-bin content and per-bin error. -/
structure HistData where
  hname : String
  nbinsX : Nat
  nbinsY : Nat
  nbinsZ : Nat
  edgesX : List ℚ
  edgesY : List ℚ
  edgesZ : List ℚ
  content : Nat → Nat → Nat → ℚ
  binErr : Nat → Nat → Nat → ℝ

/-- A numeric `TParameter<T>`: name, numeric subtype tag, value. -/
structure ParamData where
  pname : String
  subty : NumType
  val : ℚ
deriving DecidableEq

/-- A `TTree`: name and its ordered sequence of rows (entries). -/
structure TreeData where
  tname : String
  rows : List ℚ
deriving DecidableEq

/-- One keyed ROOT object: histogram, parameter, tree, nested directory, or
any other kind (name and an uninterpreted payload). -/
inductive RObject : Type where
  | hist : HistData → RObject
  | param : ParamData → RObject
  | tree : TreeData → RObject
  | dir : String → List RObject → RObject
  | other : String → String → RObject

/-- One opened input file: its name (as used in the log messages) and the
keyed objects of its root directory. -/
structure RFile where
  fname : String
  keys : List RObject

/-- `TObject::GetName`. -/
def RObject.getName : RObject → String
  | RObject.hist h => h.hname
  | RObject.param p => p.pname
  | RObject.tree t => t.tname
  | RObject.dir nm _ => nm
  | RObject.other nm _ => nm

/-- The record kinds the dispatch chain of the merge distinguishes, in the
spec's vocabulary; `passThroughCopy` is the spec's fallback kind for any
object the four `InheritsFrom` probes do not recognise. -/
inductive RecordKind where
  | sampledDistribution
  | scalarAggregate
  | tabularSequence
  | subContainer
  | passThroughCopy
deriving DecidableEq

/-- The classifier implemented by the `InheritsFrom` dispatch chain
(`TH1`, then the four `TParameter` instantiations, then `TTree`, then
`TDirectory`, then the final `else`). -/
def classify : RObject → RecordKind
  | RObject.hist _ => RecordKind.sampledDistribution
  | RObject.param _ => RecordKind.scalarAggregate
  | RObject.tree _ => RecordKind.tabularSequence
  | RObject.dir _ _ => RecordKind.subContainer
  | RObject.other _ _ => RecordKind.passThroughCopy

/-- `dir->Get(name)`: the first key with the given name. -/
def getObj (keys : List RObject) (nm : String) : Option RObject :=
  keys.find? (fun o => o.getName == nm)

/-- `(TH1*)dir->Get(name)` followed by the null check. -/
def getHist (keys : List RObject) (nm : String) : Option HistData :=
  match getObj keys nm with
  | some (RObject.hist h) => some h
  | _ => none

/-- `(TParameter<double>*)dir->Get(name)` followed by the null check; any of
the four numeric subtypes is accepted and its numeric payload used. -/
def getParam (keys : List RObject) (nm : String) : Option ParamData :=
  match getObj keys nm with
  | some (RObject.param p) => some p
  | _ => none

/-- `(TTree*)dir->Get(name)` followed by the null check. -/
def getTree (keys : List RObject) (nm : String) : Option TreeData :=
  match getObj keys nm with
  | some (RObject.tree t) => some t
  | _ => none

/-- The first sub-directory key with the given name. -/
def findSubDir (keys : List RObject) (nm : String) : Option (List RObject) :=
  match keys.find? (fun o =>
      match o with
      | RObject.dir d _ => d == nm
      | _ => false) with
  | some (RObject.dir _ sub) => some sub
  | _ => none

/-- `file->GetDirectory(path)`: descend through the named sub-directories. -/
def getDirAt (keys : List RObject) : List String → Option (List RObject)
  | [] => some keys
  | d :: rest =>
    match findSubDir keys d with
    | some sub => getDirAt sub rest
    | none => none

/-- The `std::cerr` line for a histogram missing from one input. -/
def histMissingMsg (hnm fnm : String) : String :=
  "Histogram " ++ hnm ++ " not found in file " ++ fnm

/-- The `std::cerr` line for a parameter missing from one input. -/
def paramMissingMsg (pnm fnm : String) : String :=
  "Parameter " ++ pnm ++ " not found in file " ++ fnm

/-- The `std::cerr` line for a tree missing from one input. -/
def treeMissingMsg (tnm fnm : String) : String :=
  "Tree " ++ tnm ++ " not found in file " ++ fnm

/-- The `std::cerr` line announcing a root-level subdirectory. -/
def subdirMsg (nm : String) : String :=
  "Processing subdirectory: " ++ nm

/-- `std::accumulate(begin, end, 0.0)`: left-fold sum. -/
def qAccumulate (l : List ℚ) : ℚ := l.foldl (fun a v => a + v) 0

/-- `std::inner_product(begin, end, begin, 0.0)`: left-fold sum of squares. -/
def qInnerSelf (l : List ℚ) : ℚ := l.foldl (fun a v => a + v * v) 0

/-- The coordinates visited by the triple bin loop, in loop order:
`i` outermost, then `j`, then `k`. -/
def binTriples (nx ny nz : Nat) : List (Nat × Nat × Nat) :=
  (List.range nx).flatMap (fun i =>
    (List.range ny).flatMap (fun j =>
      (List.range nz).map (fun k => (i, j, k))))

/-- `TH1::SetBinContent(i, j, k, v)`. -/
def setBinContent (h : HistData) (i j k : Nat) (v : ℚ) : HistData :=
  { h with content := fun a b c => if a = i ∧ b = j ∧ c = k then v else h.content a b c }

/-- `TH1::SetBinError(i, j, k, e)`. -/
def setBinError (h : HistData) (i j k : Nat) (e : ℝ) : HistData :=
  { h with binErr := fun a b c => if a = i ∧ b = j ∧ c = k then e else h.binErr a b c }

/-- `obj->Clone()` followed by `Reset()`: same name, binning and edges, all
bin contents and errors zeroed. -/
noncomputable def resetClone (h : HistData) : HistData :=
  { h with content := fun _ _ _ => 0, binErr := fun _ _ _ => 0 }

/-- `mean = sum / count` over the collected bin contents. -/
def binMean (vals : List ℚ) : ℚ := qAccumulate vals / (vals.length : ℚ)

/-- `stddev = sqrt(sq_sum / count - mean * mean)` over the collected bin
contents. -/
noncomputable def binStddev (vals : List ℚ) : ℝ :=
  Real.sqrt (((qInnerSelf vals / (vals.length : ℚ) - binMean vals * binMean vals : ℚ) : ℝ))

/-- The body of the bin loop at one coordinate: collect the bin contents
(logging as the collection dictates), then, if any were collected, set the
output bin to their mean and its error to their standard deviation. -/
noncomputable def histStep (collect : Nat → Nat → Nat → List ℚ × List String)
    (acc : HistData × List String) (t : Nat × Nat × Nat) : HistData × List String :=
  if (collect t.1 t.2.1 t.2.2).1 = [] then (acc.1, acc.2 ++ (collect t.1 t.2.1 t.2.2).2)
  else (setBinError
          (setBinContent acc.1 t.1 t.2.1 t.2.2 (binMean ((collect t.1 t.2.1 t.2.2).1)))
          t.1 t.2.1 t.2.2 (binStddev ((collect t.1 t.2.1 t.2.2).1)),
        acc.2 ++ (collect t.1 t.2.1 t.2.2).2)

/-- Root-level bin collection (lines 109–118): for each input file,
`(TH1*)file->Get(name)`; a found histogram contributes its bin content, a
missing one a `std::cerr` line. -/
def collectBinRoot (files : List RFile) (nm : String) (i j k : Nat) :
    List ℚ × List String :=
  files.foldl
    (fun acc f =>
      match getHist f.keys nm with
      | some h => (acc.1 ++ [h.content i j k], acc.2)
      | none => (acc.1, acc.2 ++ [histMissingMsg nm f.fname]))
    ([], [])

/-- Nested bin collection (lines 245–254): for each input file,
`file->GetDirectory(path)` then `Get(name)`; a missing directory or a
missing histogram contributes nothing and, unlike the root-level body,
logs nothing. -/
def collectBinNested (files : List RFile) (path : List String) (nm : String)
    (i j k : Nat) : List ℚ × List String :=
  (files.foldl
    (fun acc f =>
      match getDirAt f.keys path with
      | some ks =>
        match getHist ks nm with
        | some h => acc ++ [h.content i j k]
        | none => acc
      | none => acc)
    [], [])

/-- The root-level histogram merge (lines 89–137): zeroed clone of the
reference histogram, then the triple bin loop over all axes including the
two guard bins per axis. -/
noncomputable def mergeHistRoot (files : List RFile) (h : HistData) :
    HistData × List String :=
  (binTriples (h.nbinsX + 2) (h.nbinsY + 2) (h.nbinsZ + 2)).foldl
    (histStep (collectBinRoot files h.hname)) (resetClone h, [])

/-- The nested histogram merge (lines 231–270): same loop, with the
per-file lookup going through `GetDirectory(path)`. -/
noncomputable def mergeHistNested (files : List RFile) (path : List String)
    (h : HistData) : HistData × List String :=
  (binTriples (h.nbinsX + 2) (h.nbinsY + 2) (h.nbinsZ + 2)).foldl
    (histStep (collectBinNested files path h.hname)) (resetClone h, [])

/-- The payload the merge reads from a found parameter through the C-style
`(TParameter<double>*)` cast plus `GetVal` (lines 153, 282). The source
performs no numeric conversion: for a `TParameter<double>` this read is the
stored value, while for the `Long64_t`/`int`/`float` subtypes it
reinterprets the object's bytes as a double — misread bits whose value the
byte-level memory layout determines, which this embedding cannot express.
This definition idealises the read as the stored numeric value (exact for
the double subtype, the code's evident intent for the others — see the C2
code-bug record); theorems about parameter merging are stated in terms of
this read, not of the stored values, except where the two provably
coincide. -/
def castGetValD (p : ParamData) : ℚ := p.val

/-- The root-level parameter merge (lines 150–165): sum the value over the
files that have the parameter, logging each miss; the output is a
`TParameter<double>` with the original name. -/
def mergeParamRoot (files : List RFile) (nm : String) : ParamData × List String :=
  match files.foldl
      (fun acc f =>
        match getParam f.keys nm with
        | some p => (acc.1 + castGetValD p, acc.2)
        | none => (acc.1, acc.2 ++ [paramMissingMsg nm f.fname]))
      ((0 : ℚ), ([] : List String)) with
  | (total, msgs) => (⟨nm, NumType.doubleT, total⟩, msgs)

/-- The nested parameter merge (lines 277–295): as at the root, except that
the lookup goes through `GetDirectory(path)` and a file whose directory is
missing contributes nothing and logs nothing. -/
def mergeParamNested (files : List RFile) (path : List String) (nm : String) :
    ParamData × List String :=
  match files.foldl
      (fun acc f =>
        match getDirAt f.keys path with
        | some ks =>
          match getParam ks nm with
          | some p => (acc.1 + castGetValD p, acc.2)
          | none => (acc.1, acc.2 ++ [paramMissingMsg nm f.fname])
        | none => acc)
      ((0 : ℚ), ([] : List String)) with
  | (total, msgs) => (⟨nm, NumType.doubleT, total⟩, msgs)

/-- The root-level tree merge (lines 172–185): a `TChain` over the files
that have the tree, in input order, cloned into one output tree; each miss
is logged. -/
def mergeTreeRoot (files : List RFile) (nm : String) : TreeData × List String :=
  match files.foldl
      (fun acc f =>
        match getTree f.keys nm with
        | some t => (acc.1 ++ t.rows, acc.2)
        | none => (acc.1, acc.2 ++ [treeMissingMsg nm f.fname]))
      (([] : List ℚ), ([] : List String)) with
  | (rs, msgs) => (⟨nm, rs⟩, msgs)

/-- The nested tree merge (lines 299–312): as at the root, with the lookup
through `GetDirectory(path)`, and no logging on a miss. -/
def mergeTreeNested (files : List RFile) (path : List String) (nm : String) :
    TreeData × List String :=
  match files.foldl
      (fun acc f =>
        match getDirAt f.keys path with
        | some ks =>
          match getTree ks nm with
          | some t => (acc.1 ++ t.rows, acc.2)
          | none => acc
        | none => acc)
      (([] : List ℚ), ([] : List String)) with
  | (rs, msgs) => (⟨nm, rs⟩, msgs)

mutual

/-- `MergeDirectories` (lines 221–325), one reference key at a time: the
same five-way dispatch as the root body, with the per-file lookups going
through `GetDirectory` of the current source path. This computes each
merged record's contents and log output in reference enumeration order;
where each write lands in the output file is decided by the implicit
current-directory cursor, modelled separately by
`writePathsObj`/`writePathsList`. -/
noncomputable def mergeObjNested (files : List RFile) (path : List String) :
    RObject → RObject × List String
  | RObject.hist h =>
    match mergeHistNested files path h with
    | (h2, msgs) => (RObject.hist h2, msgs)
  | RObject.param p =>
    match mergeParamNested files path p.pname with
    | (p2, msgs) => (RObject.param p2, msgs)
  | RObject.tree t =>
    match mergeTreeNested files path t.tname with
    | (t2, msgs) => (RObject.tree t2, msgs)
  | RObject.dir nm contents =>
    match mergeListNested files (path ++ [nm]) contents with
    | (cs, msgs) => (RObject.dir nm cs, msgs)
  | RObject.other nm payload => (RObject.other nm payload, [])

/-- The key loop of `MergeDirectories`: merge each key of the reference
sub-directory in enumeration order, collecting merged records and logs
(write placement is modelled by `writePathsList`). -/
noncomputable def mergeListNested (files : List RFile) (path : List String) :
    List RObject → List RObject × List String
  | [] => ([], [])
  | o :: rest =>
    match mergeObjNested files path o with
    | (o2, ms) =>
      match mergeListNested files path rest with
      | (os, mss) => (o2 :: os, ms ++ mss)

end

/-- The root-level dispatch body of `MergeSingleGenFiles` (lines 83–207)
for one reference key: histogram, parameter and tree merges at the root,
`mkdir` plus `MergeDirectories` for a subdirectory (announced on
`std::cerr`), verbatim copy of the reference object otherwise. Every
root-level branch re-issues `outputFile->cd()` before writing, so
root-level placement never depends on the cursor; nested placement is
modelled by `rootWritePaths`. -/
noncomputable def mergeObjRoot (files : List RFile) : RObject → RObject × List String
  | RObject.hist h =>
    match mergeHistRoot files h with
    | (h2, msgs) => (RObject.hist h2, msgs)
  | RObject.param p =>
    match mergeParamRoot files p.pname with
    | (p2, msgs) => (RObject.param p2, msgs)
  | RObject.tree t =>
    match mergeTreeRoot files t.tname with
    | (t2, msgs) => (RObject.tree t2, msgs)
  | RObject.dir nm contents =>
    match mergeListNested files [nm] contents with
    | (cs, msgs) => (RObject.dir nm cs, subdirMsg nm :: msgs)
  | RObject.other nm payload => (RObject.other nm payload, [])

/-- The root key loop of `MergeSingleGenFiles`: merge each key of the
reference file in enumeration order. -/
noncomputable def mergeRootKeys (files : List RFile) :
    List RObject → List RObject × List String
  | [] => ([], [])
  | o :: rest =>
    match mergeObjRoot files o with
    | (o2, ms) =>
      match mergeRootKeys files rest with
      | (os, mss) => (o2 :: os, ms ++ mss)

/-- The driver's two fatal failure reasons. -/
inductive MergeFailure where
  | noInputs
  | outputCreateFailed
deriving DecidableEq

/-- What a run of the driver leaves behind: the outcome (the merged output
keys, or a failure), the `std::cerr` log, which input handles were closed,
and whether the output handle was closed. -/
structure RunResult where
  outcome : Except MergeFailure (List RObject)
  logs : List String
  closedInputs : List String
  closedOutput : Bool

/-- The driver `MergeSingleGenFiles` (lines 37–218), after discovery has
produced the ordered list of opened inputs; `outputOk` is whether the
`RECREATE` of the output file succeeds. With no inputs it aborts without
writing; with an uncreatable output it closes every input and aborts;
otherwise it merges every reference key, then closes every input and the
output. -/
noncomputable def mergeSingleGenFiles : List RFile → Bool → RunResult
  | [], _ => ⟨Except.error MergeFailure.noInputs, [], [], false⟩
  | f0 :: rest, false =>
    ⟨Except.error MergeFailure.outputCreateFailed, [],
      (f0 :: rest).map RFile.fname, false⟩
  | f0 :: rest, true =>
    match mergeRootKeys (f0 :: rest) f0.keys with
    | (out, msgs) =>
      ⟨Except.ok out, msgs, (f0 :: rest).map RFile.fname, true⟩

mutual

/-- The output paths (name and nesting, in enumeration order) rooted at
`base` that writing this object produces. -/
def pathsOf (base : List String) : RObject → List (List String)
  | RObject.hist h => [base ++ [h.hname]]
  | RObject.param p => [base ++ [p.pname]]
  | RObject.tree t => [base ++ [t.tname]]
  | RObject.dir nm contents => (base ++ [nm]) :: pathsOfList (base ++ [nm]) contents
  | RObject.other nm _ => [base ++ [nm]]

/-- The output paths of a list of keys, in enumeration order. -/
def pathsOfList (base : List String) : List RObject → List (List String)
  | [] => []
  | o :: rest => pathsOf base o ++ pathsOfList base rest

end

/-! ## Basic lemmas about the bin loop -/

/-- A coordinate is visited by the triple loop exactly when it lies inside
the looped ranges. -/
theorem binTriples_mem (nx ny nz i j k : Nat) :
    (i, j, k) ∈ binTriples nx ny nz ↔ i < nx ∧ j < ny ∧ k < nz := by
  simp only [binTriples, List.mem_flatMap, List.mem_map, List.mem_range, Prod.mk.injEq]
  constructor
  · rintro ⟨a, ha, b, hb, c, hc, hai, hbj, hck⟩
    subst hai; subst hbj; subst hck
    exact ⟨ha, hb, hc⟩
  · rintro ⟨hi, hj, hk⟩
    exact ⟨i, hi, j, hj, k, hk, rfl, rfl, rfl⟩

theorem histStep_snd (collect : Nat → Nat → Nat → List ℚ × List String)
    (acc : HistData × List String) (t : Nat × Nat × Nat) :
    (histStep collect acc t).2 = acc.2 ++ (collect t.1 t.2.1 t.2.2).2 := by
  unfold histStep
  split <;> rfl

theorem histStep_statics (collect : Nat → Nat → Nat → List ℚ × List String)
    (acc : HistData × List String) (t : Nat × Nat × Nat) :
    (histStep collect acc t).1.hname = acc.1.hname ∧
    (histStep collect acc t).1.nbinsX = acc.1.nbinsX ∧
    (histStep collect acc t).1.nbinsY = acc.1.nbinsY ∧
    (histStep collect acc t).1.nbinsZ = acc.1.nbinsZ ∧
    (histStep collect acc t).1.edgesX = acc.1.edgesX ∧
    (histStep collect acc t).1.edgesY = acc.1.edgesY ∧
    (histStep collect acc t).1.edgesZ = acc.1.edgesZ := by
  unfold histStep
  split <;> simp [setBinContent, setBinError]

theorem setBinContent_at (h : HistData) (i j k : Nat) (v : ℚ) (a b c : Nat) :
    (setBinContent h i j k v).content a b c =
      if a = i ∧ b = j ∧ c = k then v else h.content a b c := rfl

theorem setBinError_content (h : HistData) (i j k : Nat) (e : ℝ) :
    (setBinError h i j k e).content = h.content := rfl

theorem setBinContent_binErr (h : HistData) (i j k : Nat) (v : ℚ) :
    (setBinContent h i j k v).binErr = h.binErr := rfl

theorem setBinError_at (h : HistData) (i j k : Nat) (e : ℝ) (a b c : Nat) :
    (setBinError h i j k e).binErr a b c =
      if a = i ∧ b = j ∧ c = k then e else h.binErr a b c := rfl

theorem histStep_content (collect : Nat → Nat → Nat → List ℚ × List String)
    (acc : HistData × List String) (i j k a b c : Nat) :
    (histStep collect acc (i, j, k)).1.content a b c =
      if (a, b, c) = ((i, j, k) : Nat × Nat × Nat) ∧ (collect a b c).1 ≠ []
      then binMean ((collect a b c).1)
      else acc.1.content a b c := by
  by_cases hv : (collect i j k).1 = []
  · have hL : (histStep collect acc (i, j, k)).1 = acc.1 := by simp [histStep, hv]
    rw [hL, if_neg]
    rintro ⟨heq, hne⟩
    have h3 : a = i ∧ b = j ∧ c = k := by simpa [Prod.ext_iff] using heq
    obtain ⟨h1, h2, h3⟩ := h3
    subst h1; subst h2; subst h3
    exact hne hv
  · have hL : (histStep collect acc (i, j, k)).1 =
        setBinError (setBinContent acc.1 i j k (binMean ((collect i j k).1))) i j k
          (binStddev ((collect i j k).1)) := by
      simp [histStep, hv]
    rw [hL, setBinError_content, setBinContent_at]
    by_cases heq : a = i ∧ b = j ∧ c = k
    · obtain ⟨h1, h2, h3⟩ := heq
      subst h1; subst h2; subst h3
      simp [hv]
    · rw [if_neg heq, if_neg]
      rintro ⟨hpq, -⟩
      exact heq (by simpa [Prod.ext_iff] using hpq)

theorem histStep_err (collect : Nat → Nat → Nat → List ℚ × List String)
    (acc : HistData × List String) (i j k a b c : Nat) :
    (histStep collect acc (i, j, k)).1.binErr a b c =
      if (a, b, c) = ((i, j, k) : Nat × Nat × Nat) ∧ (collect a b c).1 ≠ []
      then binStddev ((collect a b c).1)
      else acc.1.binErr a b c := by
  by_cases hv : (collect i j k).1 = []
  · have hL : (histStep collect acc (i, j, k)).1 = acc.1 := by simp [histStep, hv]
    rw [hL, if_neg]
    rintro ⟨heq, hne⟩
    have h3 : a = i ∧ b = j ∧ c = k := by simpa [Prod.ext_iff] using heq
    obtain ⟨h1, h2, h3⟩ := h3
    subst h1; subst h2; subst h3
    exact hne hv
  · have hL : (histStep collect acc (i, j, k)).1 =
        setBinError (setBinContent acc.1 i j k (binMean ((collect i j k).1))) i j k
          (binStddev ((collect i j k).1)) := by
      simp [histStep, hv]
    rw [hL, setBinError_at, setBinContent_binErr]
    by_cases heq : a = i ∧ b = j ∧ c = k
    · obtain ⟨h1, h2, h3⟩ := heq
      subst h1; subst h2; subst h3
      simp [hv]
    · rw [if_neg heq, if_neg]
      rintro ⟨hpq, -⟩
      exact heq (by simpa [Prod.ext_iff] using hpq)

theorem histFold_content (collect : Nat → Nat → Nat → List ℚ × List String)
    (ts : List (Nat × Nat × Nat)) :
    ∀ (acc : HistData × List String) (a b c : Nat),
      (ts.foldl (histStep collect) acc).1.content a b c =
        if (a, b, c) ∈ ts ∧ (collect a b c).1 ≠ [] then binMean ((collect a b c).1)
        else acc.1.content a b c := by
  induction ts with
  | nil => intro acc a b c; simp
  | cons t rest ih =>
    obtain ⟨i, j, k⟩ := t
    intro acc a b c
    rw [List.foldl_cons, ih, histStep_content]
    by_cases hne : (collect a b c).1 = []
    · simp [hne]
    · by_cases hmem : (a, b, c) ∈ rest
      · simp [hmem, hne]
      · by_cases heq : (a, b, c) = ((i, j, k) : Nat × Nat × Nat)
        · simp [heq, hmem, hne]
        · simp [heq, hmem, hne]

theorem histFold_err (collect : Nat → Nat → Nat → List ℚ × List String)
    (ts : List (Nat × Nat × Nat)) :
    ∀ (acc : HistData × List String) (a b c : Nat),
      (ts.foldl (histStep collect) acc).1.binErr a b c =
        if (a, b, c) ∈ ts ∧ (collect a b c).1 ≠ [] then binStddev ((collect a b c).1)
        else acc.1.binErr a b c := by
  induction ts with
  | nil => intro acc a b c; simp
  | cons t rest ih =>
    obtain ⟨i, j, k⟩ := t
    intro acc a b c
    rw [List.foldl_cons, ih, histStep_err]
    by_cases hne : (collect a b c).1 = []
    · simp [hne]
    · by_cases hmem : (a, b, c) ∈ rest
      · simp [hmem, hne]
      · by_cases heq : (a, b, c) = ((i, j, k) : Nat × Nat × Nat)
        · simp [heq, hmem, hne]
        · simp [heq, hmem, hne]

theorem histFold_statics (collect : Nat → Nat → Nat → List ℚ × List String)
    (ts : List (Nat × Nat × Nat)) :
    ∀ (acc : HistData × List String),
      (ts.foldl (histStep collect) acc).1.hname = acc.1.hname ∧
      (ts.foldl (histStep collect) acc).1.nbinsX = acc.1.nbinsX ∧
      (ts.foldl (histStep collect) acc).1.nbinsY = acc.1.nbinsY ∧
      (ts.foldl (histStep collect) acc).1.nbinsZ = acc.1.nbinsZ ∧
      (ts.foldl (histStep collect) acc).1.edgesX = acc.1.edgesX ∧
      (ts.foldl (histStep collect) acc).1.edgesY = acc.1.edgesY ∧
      (ts.foldl (histStep collect) acc).1.edgesZ = acc.1.edgesZ := by
  induction ts with
  | nil => intro acc; simp
  | cons t rest ih =>
    intro acc
    rw [List.foldl_cons]
    obtain ⟨s1, s2, s3, s4, s5, s6, s7⟩ := histStep_statics collect acc t
    obtain ⟨i1, i2, i3, i4, i5, i6, i7⟩ := ih (histStep collect acc t)
    exact ⟨i1.trans s1, i2.trans s2, i3.trans s3, i4.trans s4,
      i5.trans s5, i6.trans s6, i7.trans s7⟩

theorem histFold_snd (collect : Nat → Nat → Nat → List ℚ × List String)
    (ts : List (Nat × Nat × Nat)) :
    ∀ (acc : HistData × List String),
      (ts.foldl (histStep collect) acc).2 =
        acc.2 ++ ts.flatMap (fun t => (collect t.1 t.2.1 t.2.2).2) := by
  induction ts with
  | nil => intro acc; simp
  | cons t rest ih =>
    intro acc
    rw [List.foldl_cons, ih, List.flatMap_cons, histStep_snd, List.append_assoc]

/-! ## Characterisation of the per-file collections and leaf merges -/

/-- The nested body's per-file histogram lookup:
`file->GetDirectory(path)` then `Get(name)`. -/
def nestedGetHist (f : RFile) (path : List String) (nm : String) : Option HistData :=
  (getDirAt f.keys path).bind (fun ks => getHist ks nm)

/-- The nested body's per-file parameter lookup. -/
def nestedGetParam (f : RFile) (path : List String) (nm : String) : Option ParamData :=
  (getDirAt f.keys path).bind (fun ks => getParam ks nm)

/-- The nested body's per-file tree lookup. -/
def nestedGetTree (f : RFile) (path : List String) (nm : String) : Option TreeData :=
  (getDirAt f.keys path).bind (fun ks => getTree ks nm)

/-- The rows an optional tree contributes to the chain. -/
def rowsOf (o : Option TreeData) : List ℚ :=
  match o with
  | some t => t.rows
  | none => []

theorem collectBinRoot_eq (files : List RFile) (nm : String) (i j k : Nat) :
    collectBinRoot files nm i j k =
      (files.filterMap (fun f => (getHist f.keys nm).map (fun g => g.content i j k)),
       (files.filter (fun f => (getHist f.keys nm).isNone)).map
         (fun f => histMissingMsg nm f.fname)) := by
  have aux : ∀ (fs : List RFile) (acc : List ℚ × List String),
      fs.foldl
        (fun acc f =>
          match getHist f.keys nm with
          | some h => (acc.1 ++ [h.content i j k], acc.2)
          | none => (acc.1, acc.2 ++ [histMissingMsg nm f.fname])) acc
      = (acc.1 ++ fs.filterMap (fun f => (getHist f.keys nm).map (fun g => g.content i j k)),
         acc.2 ++ (fs.filter (fun f => (getHist f.keys nm).isNone)).map
           (fun f => histMissingMsg nm f.fname)) := by
    intro fs
    induction fs with
    | nil => intro acc; simp
    | cons f rest ih =>
      intro acc
      rw [List.foldl_cons]
      cases hf : getHist f.keys nm with
      | none => simp [hf, ih]
      | some g => simp [hf, ih]
  unfold collectBinRoot
  rw [aux]
  simp

theorem collectBinNested_fst (files : List RFile) (path : List String) (nm : String)
    (i j k : Nat) :
    (collectBinNested files path nm i j k).1 =
      files.filterMap (fun f => (nestedGetHist f path nm).map (fun g => g.content i j k)) := by
  have aux : ∀ (fs : List RFile) (acc : List ℚ),
      fs.foldl
        (fun acc f =>
          match getDirAt f.keys path with
          | some ks =>
            match getHist ks nm with
            | some h => acc ++ [h.content i j k]
            | none => acc
          | none => acc) acc
      = acc ++ fs.filterMap (fun f => (nestedGetHist f path nm).map (fun g => g.content i j k)) := by
    intro fs
    induction fs with
    | nil => intro acc; simp
    | cons f rest ih =>
      intro acc
      rw [List.foldl_cons]
      cases hd : getDirAt f.keys path with
      | none => simp [hd, ih, nestedGetHist]
      | some ks =>
        cases hh : getHist ks nm with
        | none => simp [hd, hh, ih, nestedGetHist]
        | some g => simp [hd, hh, ih, nestedGetHist]
  unfold collectBinNested
  rw [aux]
  simp

theorem collectBinNested_snd (files : List RFile) (path : List String) (nm : String)
    (i j k : Nat) :
    (collectBinNested files path nm i j k).2 = [] := rfl

theorem mergeParamRoot_eq (files : List RFile) (nm : String) :
    mergeParamRoot files nm =
      (⟨nm, NumType.doubleT,
          (files.filterMap (fun f => (getParam f.keys nm).map castGetValD)).sum⟩,
       (files.filter (fun f => (getParam f.keys nm).isNone)).map
         (fun f => paramMissingMsg nm f.fname)) := by
  have aux : ∀ (fs : List RFile) (acc : ℚ × List String),
      fs.foldl
        (fun acc f =>
          match getParam f.keys nm with
          | some p => (acc.1 + castGetValD p, acc.2)
          | none => (acc.1, acc.2 ++ [paramMissingMsg nm f.fname])) acc
      = (acc.1 + (fs.filterMap (fun f => (getParam f.keys nm).map castGetValD)).sum,
         acc.2 ++ (fs.filter (fun f => (getParam f.keys nm).isNone)).map
           (fun f => paramMissingMsg nm f.fname)) := by
    intro fs
    induction fs with
    | nil => intro acc; simp
    | cons f rest ih =>
      intro acc
      rw [List.foldl_cons]
      cases hf : getParam f.keys nm with
      | none => simp [hf, ih]
      | some p => simp [hf, ih, add_assoc]
  unfold mergeParamRoot
  rw [aux]
  simp

theorem mergeParamNested_eq (files : List RFile) (path : List String) (nm : String) :
    mergeParamNested files path nm =
      (⟨nm, NumType.doubleT,
          (files.filterMap (fun f => (nestedGetParam f path nm).map castGetValD)).sum⟩,
       (files.filter (fun f =>
           match getDirAt f.keys path with
           | some ks => (getParam ks nm).isNone
           | none => false)).map
         (fun f => paramMissingMsg nm f.fname)) := by
  have aux : ∀ (fs : List RFile) (acc : ℚ × List String),
      fs.foldl
        (fun acc f =>
          match getDirAt f.keys path with
          | some ks =>
            match getParam ks nm with
            | some p => (acc.1 + castGetValD p, acc.2)
            | none => (acc.1, acc.2 ++ [paramMissingMsg nm f.fname])
          | none => acc) acc
      = (acc.1 + (fs.filterMap (fun f => (nestedGetParam f path nm).map castGetValD)).sum,
         acc.2 ++ (fs.filter (fun f =>
             match getDirAt f.keys path with
             | some ks => (getParam ks nm).isNone
             | none => false)).map
           (fun f => paramMissingMsg nm f.fname)) := by
    intro fs
    induction fs with
    | nil => intro acc; simp
    | cons f rest ih =>
      intro acc
      rw [List.foldl_cons]
      cases hd : getDirAt f.keys path with
      | none => simp [hd, ih, nestedGetParam]
      | some ks =>
        cases hp : getParam ks nm with
        | none => simp [hd, hp, ih, nestedGetParam]
        | some p => simp [hd, hp, ih, nestedGetParam, add_assoc]
  unfold mergeParamNested
  rw [aux]
  simp

theorem mergeTreeRoot_eq (files : List RFile) (nm : String) :
    mergeTreeRoot files nm =
      (⟨nm, files.flatMap (fun f => rowsOf (getTree f.keys nm))⟩,
       (files.filter (fun f => (getTree f.keys nm).isNone)).map
         (fun f => treeMissingMsg nm f.fname)) := by
  have aux : ∀ (fs : List RFile) (acc : List ℚ × List String),
      fs.foldl
        (fun acc f =>
          match getTree f.keys nm with
          | some t => (acc.1 ++ t.rows, acc.2)
          | none => (acc.1, acc.2 ++ [treeMissingMsg nm f.fname])) acc
      = (acc.1 ++ fs.flatMap (fun f => rowsOf (getTree f.keys nm)),
         acc.2 ++ (fs.filter (fun f => (getTree f.keys nm).isNone)).map
           (fun f => treeMissingMsg nm f.fname)) := by
    intro fs
    induction fs with
    | nil => intro acc; simp
    | cons f rest ih =>
      intro acc
      rw [List.foldl_cons]
      cases hf : getTree f.keys nm with
      | none => simp [hf, ih, rowsOf]
      | some t => simp [hf, ih, rowsOf]
  unfold mergeTreeRoot
  rw [aux]
  simp

theorem mergeTreeNested_eq (files : List RFile) (path : List String) (nm : String) :
    mergeTreeNested files path nm =
      (⟨nm, files.flatMap (fun f => rowsOf (nestedGetTree f path nm))⟩,
       ([] : List String)) := by
  have aux : ∀ (fs : List RFile) (acc : List ℚ × List String),
      fs.foldl
        (fun acc f =>
          match getDirAt f.keys path with
          | some ks =>
            match getTree ks nm with
            | some t => (acc.1 ++ t.rows, acc.2)
            | none => acc
          | none => acc) acc
      = (acc.1 ++ fs.flatMap (fun f => rowsOf (nestedGetTree f path nm)), acc.2) := by
    intro fs
    induction fs with
    | nil => intro acc; simp
    | cons f rest ih =>
      intro acc
      rw [List.foldl_cons]
      cases hd : getDirAt f.keys path with
      | none => simp [hd, ih, nestedGetTree, rowsOf]
      | some ks =>
        cases ht : getTree ks nm with
        | none => simp [hd, ht, ih, nestedGetTree, rowsOf]
        | some t => simp [hd, ht, ih, nestedGetTree, rowsOf]
  unfold mergeTreeNested
  rw [aux]
  simp

/-! ## The merged histogram, bin by bin -/

/-- The bin contents collected at one coordinate by the root-level body:
exactly the inputs that contain the histogram contribute, in input order. -/
def rootBinVals (files : List RFile) (nm : String) (a b c : Nat) : List ℚ :=
  files.filterMap (fun f => (getHist f.keys nm).map (fun g => g.content a b c))

/-- The bin contents collected at one coordinate by the nested body. -/
def nestedBinVals (files : List RFile) (path : List String) (nm : String)
    (a b c : Nat) : List ℚ :=
  files.filterMap (fun f => (nestedGetHist f path nm).map (fun g => g.content a b c))

theorem collectBinRoot_fst (files : List RFile) (nm : String) (i j k : Nat) :
    (collectBinRoot files nm i j k).1 = rootBinVals files nm i j k := by
  rw [collectBinRoot_eq]; rfl

theorem collectBinNested_fst_vals (files : List RFile) (path : List String) (nm : String)
    (i j k : Nat) :
    (collectBinNested files path nm i j k).1 = nestedBinVals files path nm i j k :=
  collectBinNested_fst files path nm i j k

theorem mergeHistRoot_content (files : List RFile) (h : HistData) (a b c : Nat) :
    (mergeHistRoot files h).1.content a b c =
      if (a < h.nbinsX + 2 ∧ b < h.nbinsY + 2 ∧ c < h.nbinsZ + 2) ∧
          rootBinVals files h.hname a b c ≠ []
      then binMean (rootBinVals files h.hname a b c)
      else 0 := by
  unfold mergeHistRoot
  rw [histFold_content]
  simp only [binTriples_mem, collectBinRoot_fst, resetClone]

theorem mergeHistRoot_err (files : List RFile) (h : HistData) (a b c : Nat) :
    (mergeHistRoot files h).1.binErr a b c =
      if (a < h.nbinsX + 2 ∧ b < h.nbinsY + 2 ∧ c < h.nbinsZ + 2) ∧
          rootBinVals files h.hname a b c ≠ []
      then binStddev (rootBinVals files h.hname a b c)
      else 0 := by
  unfold mergeHistRoot
  rw [histFold_err]
  simp only [binTriples_mem, collectBinRoot_fst, resetClone]

theorem mergeHistNested_content (files : List RFile) (path : List String) (h : HistData)
    (a b c : Nat) :
    (mergeHistNested files path h).1.content a b c =
      if (a < h.nbinsX + 2 ∧ b < h.nbinsY + 2 ∧ c < h.nbinsZ + 2) ∧
          nestedBinVals files path h.hname a b c ≠ []
      then binMean (nestedBinVals files path h.hname a b c)
      else 0 := by
  unfold mergeHistNested
  rw [histFold_content]
  simp only [binTriples_mem, collectBinNested_fst_vals, resetClone]

theorem mergeHistNested_err (files : List RFile) (path : List String) (h : HistData)
    (a b c : Nat) :
    (mergeHistNested files path h).1.binErr a b c =
      if (a < h.nbinsX + 2 ∧ b < h.nbinsY + 2 ∧ c < h.nbinsZ + 2) ∧
          nestedBinVals files path h.hname a b c ≠ []
      then binStddev (nestedBinVals files path h.hname a b c)
      else 0 := by
  unfold mergeHistNested
  rw [histFold_err]
  simp only [binTriples_mem, collectBinNested_fst_vals, resetClone]

theorem mergeHistRoot_statics (files : List RFile) (h : HistData) :
    (mergeHistRoot files h).1.hname = h.hname ∧
    (mergeHistRoot files h).1.nbinsX = h.nbinsX ∧
    (mergeHistRoot files h).1.nbinsY = h.nbinsY ∧
    (mergeHistRoot files h).1.nbinsZ = h.nbinsZ ∧
    (mergeHistRoot files h).1.edgesX = h.edgesX ∧
    (mergeHistRoot files h).1.edgesY = h.edgesY ∧
    (mergeHistRoot files h).1.edgesZ = h.edgesZ := by
  unfold mergeHistRoot
  exact histFold_statics _ _ _

theorem mergeHistNested_statics (files : List RFile) (path : List String) (h : HistData) :
    (mergeHistNested files path h).1.hname = h.hname ∧
    (mergeHistNested files path h).1.nbinsX = h.nbinsX ∧
    (mergeHistNested files path h).1.nbinsY = h.nbinsY ∧
    (mergeHistNested files path h).1.nbinsZ = h.nbinsZ ∧
    (mergeHistNested files path h).1.edgesX = h.edgesX ∧
    (mergeHistNested files path h).1.edgesY = h.edgesY ∧
    (mergeHistNested files path h).1.edgesZ = h.edgesZ := by
  unfold mergeHistNested
  exact histFold_statics _ _ _

/-- The collected sample has one value per input that contains the record. -/
theorem filterMap_isSome_length {α : Type} {β : Type} {γ : Type}
    (l : List α) (o : α → Option β) (g : β → γ) :
    (l.filterMap (fun x => (o x).map g)).length =
      (l.filter (fun x => (o x).isSome)).length := by
  induction l with
  | nil => rfl
  | cons x rest ih =>
    cases hx : o x with
    | none => simp [hx, ih]
    | some b => simp [hx, ih]

theorem binStddev_eq (vals : List ℚ) :
    binStddev vals =
      Real.sqrt (((qInnerSelf vals / (vals.length : ℚ) -
        (qAccumulate vals / (vals.length : ℚ)) ^ 2 : ℚ) : ℝ)) := by
  unfold binStddev binMean
  rw [pow_two]

theorem rootBinVals_nil (files : List RFile) (nm : String) (a b c : Nat)
    (hmiss : ∀ f ∈ files, getHist f.keys nm = none) :
    rootBinVals files nm a b c = [] := by
  unfold rootBinVals
  rw [List.filterMap_eq_nil_iff]
  intro f hf
  rw [hmiss f hf]
  rfl

theorem nestedBinVals_nil (files : List RFile) (path : List String) (nm : String)
    (a b c : Nat) (hmiss : ∀ f ∈ files, nestedGetHist f path nm = none) :
    nestedBinVals files path nm a b c = [] := by
  unfold nestedBinVals
  rw [List.filterMap_eq_nil_iff]
  intro f hf
  rw [hmiss f hf]
  rfl

theorem flatMap_length_eq {α : Type} {β : Type} (l : List α) (g : α → List β) :
    (l.flatMap g).length = (l.map (fun x => (g x).length)).sum := by
  induction l with
  | nil => rfl
  | cons x rest ih => simp [ih]

/-! ## Claim theorems -/

/-- C1: for every histogram record and every bin coordinate of its grid —
all dimensions, guard bins at each axis edge included — whenever the bin
contents collected from exactly the inputs that contain the record form a
non-empty sample, the merged output bin's value is `sum(values)/count`, its
uncertainty is `sqrt(sum(v²)/count − mean²)`, and `count` is the number of
inputs containing the record. The root-level body's conclusions need only
its own sample (the histogram looked up at each input's root) to be
non-empty, and the nested body's conclusions need only the sample collected
through `GetDirectory(path)` — in particular they cover histograms that
exist only under their nested path. -/
theorem hist_bin_mean_stddev (files : List RFile) (h : HistData) (path : List String)
    (a b c : Nat)
    (ha : a < h.nbinsX + 2) (hb : b < h.nbinsY + 2) (hc : c < h.nbinsZ + 2) :
    (rootBinVals files h.hname a b c ≠ [] →
      (mergeHistRoot files h).1.content a b c =
          qAccumulate (rootBinVals files h.hname a b c) /
            ((rootBinVals files h.hname a b c).length : ℚ) ∧
      (mergeHistRoot files h).1.binErr a b c =
          Real.sqrt (((qInnerSelf (rootBinVals files h.hname a b c) /
              ((rootBinVals files h.hname a b c).length : ℚ) -
              (qAccumulate (rootBinVals files h.hname a b c) /
                ((rootBinVals files h.hname a b c).length : ℚ)) ^ 2 : ℚ) : ℝ))) ∧
    (rootBinVals files h.hname a b c).length =
        (files.filter (fun f => (getHist f.keys h.hname).isSome)).length ∧
    (nestedBinVals files path h.hname a b c ≠ [] →
      (mergeHistNested files path h).1.content a b c =
          qAccumulate (nestedBinVals files path h.hname a b c) /
            ((nestedBinVals files path h.hname a b c).length : ℚ) ∧
      (mergeHistNested files path h).1.binErr a b c =
          Real.sqrt (((qInnerSelf (nestedBinVals files path h.hname a b c) /
              ((nestedBinVals files path h.hname a b c).length : ℚ) -
              (qAccumulate (nestedBinVals files path h.hname a b c) /
                ((nestedBinVals files path h.hname a b c).length : ℚ)) ^ 2 : ℚ) : ℝ))) ∧
    (nestedBinVals files path h.hname a b c).length =
        (files.filter (fun f => (nestedGetHist f path h.hname).isSome)).length := by
  refine ⟨fun hr => ⟨?_, ?_⟩, ?_, fun hn => ⟨?_, ?_⟩, ?_⟩
  · rw [mergeHistRoot_content, if_pos ⟨⟨ha, hb, hc⟩, hr⟩]
    rfl
  · rw [mergeHistRoot_err, if_pos ⟨⟨ha, hb, hc⟩, hr⟩, binStddev_eq]
  · exact filterMap_isSome_length files (fun f => getHist f.keys h.hname)
      (fun g => g.content a b c)
  · rw [mergeHistNested_content, if_pos ⟨⟨ha, hb, hc⟩, hn⟩]
    rfl
  · rw [mergeHistNested_err, if_pos ⟨⟨ha, hb, hc⟩, hn⟩, binStddev_eq]
  · exact filterMap_isSome_length files (fun f => nestedGetHist f path h.hname)
      (fun g => g.content a b c)

/-- What is true of the parameter strategy independently of the cast's
byte-level behaviour: every numeric parameter record, whatever its subtype,
is classified as a scalar aggregate and funnelled into the same summation
path, and both bodies write one double-subtype parameter with the original
name whose value is the sum of the payloads read through the
`(TParameter<double>*)` cast over exactly the inputs that contain the
record. -/
theorem scalar_sum_of_cast_reads (files : List RFile) (path : List String) (nm : String) :
    (∀ (s : String) (t : NumType) (v : ℚ),
      classify (RObject.param ⟨s, t, v⟩) = RecordKind.scalarAggregate) ∧
    (mergeParamRoot files nm).1.val =
        (files.filterMap (fun f => (getParam f.keys nm).map castGetValD)).sum ∧
    (mergeParamRoot files nm).1.pname = nm ∧
    (mergeParamRoot files nm).1.subty = NumType.doubleT ∧
    (mergeParamNested files path nm).1.val =
        (files.filterMap (fun f => (nestedGetParam f path nm).map castGetValD)).sum ∧
    (mergeParamNested files path nm).1.pname = nm ∧
    (mergeParamNested files path nm).1.subty = NumType.doubleT := by
  rw [mergeParamRoot_eq, mergeParamNested_eq]
  exact ⟨fun _ _ _ => rfl, rfl, rfl, rfl, rfl, rfl, rfl⟩

/-- An `int`-subtype parameter stored in two inputs. -/
def pIntParam (v : ℚ) : ParamData := ⟨"nEvents", NumType.intT, v⟩

/-- First input of the C2 failing scenario: `nEvents` as `TParameter<int>`. -/
def pFileX : RFile := ⟨"pX", [RObject.param (pIntParam 1000)]⟩

/-- Second input of the C2 failing scenario. -/
def pFileY : RFile := ⟨"pY", [RObject.param (pIntParam 1500)]⟩

/-- C2's failing input evaluated: two inputs carry `nEvents` as a
`TParameter<int>` (a non-double subtype), the dispatch classifies the
record as a scalar aggregate all the same, and the merged output is a
double-subtype parameter whose value is the sum of the two
`(TParameter<double>*)`-cast reads — reads that the source performs with no
int-to-double conversion, so on the real machine they are reinterpreted
bits, not the numeric values 1000 and 1500 that the claim's "regardless of
subtype" requires. -/
theorem scalar_cast_failing_input :
    classify (RObject.param (pIntParam 1000)) = RecordKind.scalarAggregate ∧
    (pIntParam 1000).subty ≠ NumType.doubleT ∧
    getParam pFileX.keys "nEvents" = some (pIntParam 1000) ∧
    getParam pFileY.keys "nEvents" = some (pIntParam 1500) ∧
    (mergeParamRoot [pFileX, pFileY] "nEvents").1.val =
        castGetValD (pIntParam 1000) + castGetValD (pIntParam 1500) ∧
    (mergeParamRoot [pFileX, pFileY] "nEvents").1.subty = NumType.doubleT ∧
    (mergeParamRoot [pFileX, pFileY] "nEvents").1.pname = "nEvents" := by
  refine ⟨rfl, by decide, rfl, rfl, ?_, ?_, ?_⟩
  · rw [mergeParamRoot_eq]
    simp [pFileX, pFileY, pIntParam, getParam, getObj, RObject.getName]
  · rw [mergeParamRoot_eq]
  · rw [mergeParamRoot_eq]

/-- C3: for every tree record, the merged row sequence is the concatenation,
in input order, of each input's row sequence (an input missing the record
contributes zero rows), so the merged row count is the sum of the per-input
row counts — in the root-level and nested merge bodies alike. -/
theorem tree_merge_is_concat (files : List RFile) (path : List String) (nm : String) :
    (mergeTreeRoot files nm).1.rows =
        files.flatMap (fun f => rowsOf (getTree f.keys nm)) ∧
    (mergeTreeRoot files nm).1.rows.length =
        (files.map (fun f => (rowsOf (getTree f.keys nm)).length)).sum ∧
    (mergeTreeRoot files nm).1.tname = nm ∧
    (mergeTreeNested files path nm).1.rows =
        files.flatMap (fun f => rowsOf (nestedGetTree f path nm)) ∧
    (mergeTreeNested files path nm).1.rows.length =
        (files.map (fun f => (rowsOf (nestedGetTree f path nm)).length)).sum ∧
    (mergeTreeNested files path nm).1.tname = nm ∧
    rowsOf none = ([] : List ℚ) := by
  rw [mergeTreeRoot_eq, mergeTreeNested_eq]
  refine ⟨rfl, ?_, rfl, rfl, ?_, rfl, rfl⟩
  · exact flatMap_length_eq files (fun f => rowsOf (getTree f.keys nm))
  · exact flatMap_length_eq files (fun f => rowsOf (nestedGetTree f path nm))

/-- C7: a histogram bin to which no input contributes (the record is missing
from every input) is left at the zero-initialised default of the reset
reference clone — value `0`, uncertainty `0` — while the output record keeps
the reference record's name, bin counts and axis edges; no failure is
raised (the merge is total). Root-level and nested bodies alike. -/
theorem empty_bin_zero_default (files : List RFile) (h : HistData) (path : List String)
    (a b c : Nat)
    (hr : ∀ f ∈ files, getHist f.keys h.hname = none)
    (hn : ∀ f ∈ files, nestedGetHist f path h.hname = none) :
    (mergeHistRoot files h).1.content a b c = 0 ∧
    (mergeHistRoot files h).1.binErr a b c = 0 ∧
    (mergeHistNested files path h).1.content a b c = 0 ∧
    (mergeHistNested files path h).1.binErr a b c = 0 ∧
    (mergeHistRoot files h).1.hname = h.hname ∧
    (mergeHistRoot files h).1.nbinsX = h.nbinsX ∧
    (mergeHistRoot files h).1.nbinsY = h.nbinsY ∧
    (mergeHistRoot files h).1.nbinsZ = h.nbinsZ ∧
    (mergeHistRoot files h).1.edgesX = h.edgesX ∧
    (mergeHistRoot files h).1.edgesY = h.edgesY ∧
    (mergeHistRoot files h).1.edgesZ = h.edgesZ ∧
    (mergeHistNested files path h).1.nbinsX = h.nbinsX ∧
    (mergeHistNested files path h).1.nbinsY = h.nbinsY ∧
    (mergeHistNested files path h).1.nbinsZ = h.nbinsZ ∧
    (mergeHistNested files path h).1.edgesX = h.edgesX ∧
    (mergeHistNested files path h).1.edgesY = h.edgesY ∧
    (mergeHistNested files path h).1.edgesZ = h.edgesZ := by
  have hrv := rootBinVals_nil files h.hname a b c hr
  have hnv := nestedBinVals_nil files path h.hname a b c hn
  obtain ⟨s1, s2, s3, s4, s5, s6, s7⟩ := mergeHistRoot_statics files h
  obtain ⟨t1, t2, t3, t4, t5, t6, t7⟩ := mergeHistNested_statics files path h
  refine ⟨?_, ?_, ?_, ?_, s1, s2, s3, s4, s5, s6, s7, t2, t3, t4, t5, t6, t7⟩
  · rw [mergeHistRoot_content, if_neg]
    rintro ⟨-, hne⟩
    exact hne hrv
  · rw [mergeHistRoot_err, if_neg]
    rintro ⟨-, hne⟩
    exact hne hrv
  · rw [mergeHistNested_content, if_neg]
    rintro ⟨-, hne⟩
    exact hne hnv
  · rw [mergeHistNested_err, if_neg]
    rintro ⟨-, hne⟩
    exact hne hnv

/-! ## Path preservation: the output mirrors the reference tree -/

mutual

theorem pathsOf_mergeObjNested (files : List RFile) (path : List String)
    (base : List String) : ∀ (o : RObject),
    pathsOf base (mergeObjNested files path o).1 = pathsOf base o
  | RObject.hist h => by
    rcases hp : mergeHistNested files path h with ⟨h2, msgs⟩
    have hn : h2.hname = h.hname := by
      have hs := (mergeHistNested_statics files path h).1
      rw [hp] at hs
      exact hs
    simp [mergeObjNested, hp, pathsOf, hn]
  | RObject.param p => by
    rcases hp : mergeParamNested files path p.pname with ⟨p2, msgs⟩
    have hn : p2.pname = p.pname := by
      have he := mergeParamNested_eq files path p.pname
      rw [hp] at he
      have := congrArg (fun x => Prod.fst x) he
      simp only at this
      rw [this]
    simp [mergeObjNested, hp, pathsOf, hn]
  | RObject.tree t => by
    rcases hp : mergeTreeNested files path t.tname with ⟨t2, msgs⟩
    have hn : t2.tname = t.tname := by
      have he := mergeTreeNested_eq files path t.tname
      rw [hp] at he
      have := congrArg (fun x => Prod.fst x) he
      simp only at this
      rw [this]
    simp [mergeObjNested, hp, pathsOf, hn]
  | RObject.dir nm contents => by
    rcases hp : mergeListNested files (path ++ [nm]) contents with ⟨cs, msgs⟩
    have hrec := pathsOfList_mergeListNested files (path ++ [nm]) (base ++ [nm]) contents
    rw [hp] at hrec
    simp [mergeObjNested, hp, pathsOf, hrec]
  | RObject.other nm payload => by
    simp [mergeObjNested, pathsOf]

theorem pathsOfList_mergeListNested (files : List RFile) (path : List String)
    (base : List String) : ∀ (l : List RObject),
    pathsOfList base (mergeListNested files path l).1 = pathsOfList base l
  | [] => by
    simp [mergeListNested, pathsOfList]
  | o :: rest => by
    rcases hp : mergeObjNested files path o with ⟨o2, ms⟩
    rcases hq : mergeListNested files path rest with ⟨os, mss⟩
    have h1 := pathsOf_mergeObjNested files path base o
    have h2 := pathsOfList_mergeListNested files path base rest
    rw [hp] at h1
    rw [hq] at h2
    simp [mergeListNested, hp, hq, pathsOfList, h1, h2]

end

theorem pathsOf_mergeObjRoot (files : List RFile) (base : List String) (o : RObject) :
    pathsOf base (mergeObjRoot files o).1 = pathsOf base o := by
  cases o with
  | hist h =>
    rcases hp : mergeHistRoot files h with ⟨h2, msgs⟩
    have hn : h2.hname = h.hname := by
      have hs := (mergeHistRoot_statics files h).1
      rw [hp] at hs
      exact hs
    simp [mergeObjRoot, hp, pathsOf, hn]
  | param p =>
    rcases hp : mergeParamRoot files p.pname with ⟨p2, msgs⟩
    have hn : p2.pname = p.pname := by
      have he := mergeParamRoot_eq files p.pname
      rw [hp] at he
      have := congrArg (fun x => Prod.fst x) he
      simp only at this
      rw [this]
    simp [mergeObjRoot, hp, pathsOf, hn]
  | tree t =>
    rcases hp : mergeTreeRoot files t.tname with ⟨t2, msgs⟩
    have hn : t2.tname = t.tname := by
      have he := mergeTreeRoot_eq files t.tname
      rw [hp] at he
      have := congrArg (fun x => Prod.fst x) he
      simp only at this
      rw [this]
    simp [mergeObjRoot, hp, pathsOf, hn]
  | dir nm contents =>
    rcases hp : mergeListNested files [nm] contents with ⟨cs, msgs⟩
    have hrec := pathsOfList_mergeListNested files [nm] (base ++ [nm]) contents
    rw [hp] at hrec
    simp [mergeObjRoot, hp, pathsOf, hrec]
  | other nm payload =>
    simp [mergeObjRoot, pathsOf]

theorem mergeRootKeys_cons (files : List RFile) (o : RObject) (rest : List RObject) :
    mergeRootKeys files (o :: rest) =
      ((mergeObjRoot files o).1 :: (mergeRootKeys files rest).1,
       (mergeObjRoot files o).2 ++ (mergeRootKeys files rest).2) := by
  rcases hp : mergeObjRoot files o with ⟨o2, ms⟩
  rcases hq : mergeRootKeys files rest with ⟨os, mss⟩
  simp only [mergeRootKeys]
  rw [hp, hq]

theorem mergeListNested_cons (files : List RFile) (path : List String) (o : RObject)
    (rest : List RObject) :
    mergeListNested files path (o :: rest) =
      ((mergeObjNested files path o).1 :: (mergeListNested files path rest).1,
       (mergeObjNested files path o).2 ++ (mergeListNested files path rest).2) := by
  rcases hp : mergeObjNested files path o with ⟨o2, ms⟩
  rcases hq : mergeListNested files path rest with ⟨os, mss⟩
  simp only [mergeListNested]
  rw [hp, hq]

theorem pathsOfList_mergeRootKeys (files : List RFile) (base : List String)
    (l : List RObject) :
    pathsOfList base (mergeRootKeys files l).1 = pathsOfList base l := by
  induction l with
  | nil => simp [mergeRootKeys, pathsOfList]
  | cons o rest ih =>
    rw [mergeRootKeys_cons]
    simp only [pathsOfList]
    rw [pathsOf_mergeObjRoot files base o, ih]

/-! ## Write placement: the implicit current-directory cursor

The record merges above say what each merged record contains; where it
lands in the output file is decided separately, by ROOT's implicit current
directory (`gDirectory`). `MergeSingleGenFiles` re-targets the output root
with `outputFile->cd()` in every branch before writing; `MergeDirectories`
cd's into its output directory once at entry (line 222) and again in its
parameter, tree and fallback branches (lines 294, 310, 322) — but its
histogram branch writes (line 270) without any `cd()`, and its
subdirectory branch (lines 314–318) recurses without restoring the cursor
afterwards. The functions below model the traversal's write placement with
that cursor made explicit: each write contributes the full output path of
the object written, and the cursor is threaded through the key loop.
Placement depends only on the reference tree, never on the other inputs. -/

mutual

/-- The output paths one nested reference key produces, and the cursor left
behind: a histogram is written at the current cursor (no `cd()` in its
branch); a parameter, tree or fallback object first cd's back to the output
directory; a subdirectory is created in the output directory, then the
recursion enters it (its entry `cd()`) and leaves the cursor wherever its
last `cd()` put it. -/
def writePathsObj (outPath cursor : List String) :
    RObject → List (List String) × List String
  | RObject.hist h => ([cursor ++ [h.hname]], cursor)
  | RObject.param p => ([outPath ++ [p.pname]], outPath)
  | RObject.tree t => ([outPath ++ [t.tname]], outPath)
  | RObject.dir nm contents =>
    match writePathsList (outPath ++ [nm]) (outPath ++ [nm]) contents with
    | (ws, endCur) => ((outPath ++ [nm]) :: ws, endCur)
  | RObject.other nm _ => ([outPath ++ [nm]], outPath)

/-- The output paths a nested key list produces, threading the cursor. -/
def writePathsList (outPath cursor : List String) :
    List RObject → List (List String) × List String
  | [] => ([], cursor)
  | o :: rest =>
    match writePathsObj outPath cursor o with
    | (ws, cur2) =>
      match writePathsList outPath cur2 rest with
      | (ws2, cur3) => (ws ++ ws2, cur3)

end

/-- The output paths of the root key loop: every root-level branch re-issues
`outputFile->cd()` before writing, so root placement never depends on the
cursor a previous key left behind. -/
def rootWritePaths : List RObject → List (List String)
  | [] => []
  | o :: rest =>
    (match o with
     | RObject.hist h => [[h.hname]]
     | RObject.param p => [[p.pname]]
     | RObject.tree t => [[t.tname]]
     | RObject.dir nm contents => [nm] :: (writePathsList [nm] [nm] contents).1
     | RObject.other nm _ => [[nm]]) ++ rootWritePaths rest

/-- `cursorSafe seen l`: walking a nested key list whose most recent
cursor-moving sibling was a subdirectory exactly when `seen` is true, no
histogram is ever written through a stale cursor: a histogram key demands
`seen = false`; parameter, tree and fallback keys reset the cursor; a
subdirectory key must be safe inside and leaves `seen = true`. -/
def cursorSafe (seen : Bool) : List RObject → Bool
  | [] => true
  | RObject.hist _ :: rest => !seen && cursorSafe seen rest
  | RObject.param _ :: rest => cursorSafe false rest
  | RObject.tree _ :: rest => cursorSafe false rest
  | RObject.dir _ contents :: rest => cursorSafe false contents && cursorSafe true rest
  | RObject.other _ _ :: rest => cursorSafe false rest

/-- The root key list is placement-safe when every subdirectory's contents
are (root-level branches always cd first). -/
def rootSafe (l : List RObject) : Bool :=
  l.all (fun o =>
    match o with
    | RObject.dir _ contents => cursorSafe false contents
    | _ => true)

theorem writePathsObj_hist (outPath cursor : List String) (h : HistData) :
    writePathsObj outPath cursor (RObject.hist h) = ([cursor ++ [h.hname]], cursor) := by
  simp [writePathsObj]

theorem writePathsObj_param (outPath cursor : List String) (p : ParamData) :
    writePathsObj outPath cursor (RObject.param p) = ([outPath ++ [p.pname]], outPath) := by
  simp [writePathsObj]

theorem writePathsObj_tree (outPath cursor : List String) (t : TreeData) :
    writePathsObj outPath cursor (RObject.tree t) = ([outPath ++ [t.tname]], outPath) := by
  simp [writePathsObj]

theorem writePathsObj_other (outPath cursor : List String) (nm payload : String) :
    writePathsObj outPath cursor (RObject.other nm payload) = ([outPath ++ [nm]], outPath) := by
  simp [writePathsObj]

theorem writePathsObj_dir (outPath cursor : List String) (nm : String)
    (contents : List RObject) :
    writePathsObj outPath cursor (RObject.dir nm contents) =
      ((outPath ++ [nm]) :: (writePathsList (outPath ++ [nm]) (outPath ++ [nm]) contents).1,
       (writePathsList (outPath ++ [nm]) (outPath ++ [nm]) contents).2) := by
  rcases hp : writePathsList (outPath ++ [nm]) (outPath ++ [nm]) contents with ⟨ws, c⟩
  simp [writePathsObj, hp]

theorem writePathsList_cons (outPath cursor : List String) (o : RObject)
    (rest : List RObject) :
    writePathsList outPath cursor (o :: rest) =
      ((writePathsObj outPath cursor o).1 ++
        (writePathsList outPath (writePathsObj outPath cursor o).2 rest).1,
       (writePathsList outPath (writePathsObj outPath cursor o).2 rest).2) := by
  rcases hp : writePathsObj outPath cursor o with ⟨ws, c2⟩
  rcases hq : writePathsList outPath c2 rest with ⟨ws2, c3⟩
  simp only [writePathsList]
  rw [hp]
  rw [hq]

theorem writePathsList_safe : ∀ (l : List RObject) (outPath cursor : List String)
    (seen : Bool), cursorSafe seen l = true → (seen = false → cursor = outPath) →
    (writePathsList outPath cursor l).1 = pathsOfList outPath l
  | [] => by
    intro outPath cursor seen _ _
    simp [writePathsList, pathsOfList]
  | RObject.hist h :: rest => by
    intro outPath cursor seen hsafe hinv
    simp only [cursorSafe, Bool.and_eq_true] at hsafe
    obtain ⟨h1, h2⟩ := hsafe
    have hseen : seen = false := by
      cases seen
      · rfl
      · exact absurd h1 (by decide)
    subst hseen
    have hcur : cursor = outPath := hinv rfl
    have ih := writePathsList_safe rest outPath outPath false h2 (fun _ => rfl)
    rw [writePathsList_cons, writePathsObj_hist, hcur]
    simp [ih, pathsOfList, pathsOf]
  | RObject.param p :: rest => by
    intro outPath cursor seen hsafe hinv
    simp only [cursorSafe] at hsafe
    have ih := writePathsList_safe rest outPath outPath false hsafe (fun _ => rfl)
    rw [writePathsList_cons, writePathsObj_param]
    simp [ih, pathsOfList, pathsOf]
  | RObject.tree t :: rest => by
    intro outPath cursor seen hsafe hinv
    simp only [cursorSafe] at hsafe
    have ih := writePathsList_safe rest outPath outPath false hsafe (fun _ => rfl)
    rw [writePathsList_cons, writePathsObj_tree]
    simp [ih, pathsOfList, pathsOf]
  | RObject.other nm payload :: rest => by
    intro outPath cursor seen hsafe hinv
    simp only [cursorSafe] at hsafe
    have ih := writePathsList_safe rest outPath outPath false hsafe (fun _ => rfl)
    rw [writePathsList_cons, writePathsObj_other]
    simp [ih, pathsOfList, pathsOf]
  | RObject.dir nm contents :: rest => by
    intro outPath cursor seen hsafe hinv
    simp only [cursorSafe, Bool.and_eq_true] at hsafe
    obtain ⟨hc, hr⟩ := hsafe
    have ihc := writePathsList_safe contents (outPath ++ [nm]) (outPath ++ [nm]) false hc
      (fun _ => rfl)
    have ihr := writePathsList_safe rest outPath
      ((writePathsList (outPath ++ [nm]) (outPath ++ [nm]) contents).2) true hr
      (fun hff => Bool.noConfusion hff)
    rw [writePathsList_cons, writePathsObj_dir]
    simp [ihc, ihr, pathsOfList, pathsOf]

theorem rootWritePaths_safe (l : List RObject) (hs : rootSafe l = true) :
    rootWritePaths l = pathsOfList [] l := by
  induction l with
  | nil => simp [rootWritePaths, pathsOfList]
  | cons o rest ih =>
    cases o with
    | hist h =>
      have hrest : rootSafe rest = true := by simpa [rootSafe] using hs
      simp [rootWritePaths, pathsOfList, pathsOf, ih hrest]
    | param p =>
      have hrest : rootSafe rest = true := by simpa [rootSafe] using hs
      simp [rootWritePaths, pathsOfList, pathsOf, ih hrest]
    | tree t =>
      have hrest : rootSafe rest = true := by simpa [rootSafe] using hs
      simp [rootWritePaths, pathsOfList, pathsOf, ih hrest]
    | dir nm contents =>
      have hparts : cursorSafe false contents = true ∧ rootSafe rest = true := by
        simpa [rootSafe, Bool.and_eq_true] using hs
      have hin := writePathsList_safe contents [nm] [nm] false hparts.1 (fun _ => rfl)
      simp [rootWritePaths, pathsOfList, pathsOf, ih hparts.2, hin]
    | other nm payload =>
      have hrest : rootSafe rest = true := by simpa [rootSafe] using hs
      simp [rootWritePaths, pathsOfList, pathsOf, ih hrest]

/-- The histogram of the C4 counterexample, sibling of a subdirectory. -/
noncomputable def cxHistH : HistData :=
  ⟨"H", 1, 1, 1, [], [], [], fun _ _ _ => 0, fun _ _ _ => 0⟩

/-- The C4 counterexample reference input: at nested level, directory
`outer` holds the subdirectory `inner` followed by the histogram `H`. -/
noncomputable def cxRefFile : RFile :=
  ⟨"cx0", [RObject.dir "outer" [RObject.dir "inner" [], RObject.hist cxHistH]]⟩

/-- C4 counterexample: with the reference tree `outer/{inner/, H}`, the
nested histogram `H` follows the subdirectory `inner`; the recursion into
`inner` leaves the current directory there and the histogram branch never
resets it, so `H` is written at `outer/inner/H` while its reference path is
`outer/H` — the output path set differs from the reference path set. -/
theorem output_paths_cursor_cex :
    rootWritePaths cxRefFile.keys ≠ pathsOfList [] cxRefFile.keys ∧
    rootWritePaths cxRefFile.keys =
      [["outer"], ["outer", "inner"], ["outer", "inner", "H"]] ∧
    pathsOfList [] cxRefFile.keys =
      [["outer"], ["outer", "inner"], ["outer", "H"]] ∧
    rootSafe cxRefFile.keys = false := by
  have e0 : writePathsList ["outer", "inner"] ["outer", "inner"] ([] : List RObject)
      = ([], ["outer", "inner"]) := by
    simp [writePathsList]
  have e1 : writePathsList ["outer"] ["outer"]
      [RObject.dir "inner" [], RObject.hist cxHistH]
      = ([["outer", "inner"], ["outer", "inner", "H"]], ["outer", "inner"]) := by
    simp [writePathsList_cons, writePathsObj_dir, writePathsObj_hist, e0, cxHistH,
      writePathsList]
  have hw : rootWritePaths cxRefFile.keys =
      [["outer"], ["outer", "inner"], ["outer", "inner", "H"]] := by
    simp [rootWritePaths, cxRefFile, e1]
  have hp : pathsOfList [] cxRefFile.keys =
      [["outer"], ["outer", "inner"], ["outer", "H"]] := by
    simp [pathsOfList, pathsOf, cxRefFile, cxHistH]
  refine ⟨?_, hw, hp, ?_⟩
  · rw [hw, hp]
    decide
  · simp [rootSafe, cursorSafe, cxRefFile, cxHistH]

/-- C4 (amended): a completed merge produces one merged record per
reference key, mirroring the reference's names and nesting in enumeration
order, and the set of output write paths equals the reference tree's path
set — regardless of which records are missing from non-reference inputs —
provided that in no nested directory a histogram key follows a subdirectory
key without a parameter, tree or fallback key in between (the
cursor-safety condition); when the reference paths are also pairwise
distinct, each output path is written exactly once. Without the condition a
nested histogram after a subdirectory sibling is written inside that
subdirectory's last-visited output directory instead. -/
theorem output_paths_match_reference_amended (f0 : RFile) (rest : List RFile)
    (hs : rootSafe f0.keys = true) :
    (mergeSingleGenFiles (f0 :: rest) true).outcome =
        Except.ok (mergeRootKeys (f0 :: rest) f0.keys).1 ∧
    pathsOfList [] (mergeRootKeys (f0 :: rest) f0.keys).1 = pathsOfList [] f0.keys ∧
    rootWritePaths f0.keys = pathsOfList [] f0.keys ∧
    ((pathsOfList [] f0.keys).Nodup → (rootWritePaths f0.keys).Nodup) := by
  refine ⟨?_, pathsOfList_mergeRootKeys (f0 :: rest) [] f0.keys,
    rootWritePaths_safe f0.keys hs, ?_⟩
  · rcases hp : mergeRootKeys (f0 :: rest) f0.keys with ⟨out, msgs⟩
    simp [mergeSingleGenFiles, hp]
  · intro hd
    rw [rootWritePaths_safe f0.keys hs]
    exact hd

/-! ## Driver-level claims -/

/-- C5: the driver has exactly two fatal failure modes, both checked before
any record is merged: an empty input set aborts with the no-inputs failure
(nothing merged, nothing logged), an uncreatable output aborts with the
output-create failure; the two reasons are distinct, a failed run never
yields an output, and with at least one input and a creatable output the
run always completes with a merged output — no per-record condition is ever
fatal. -/
theorem driver_failure_modes (b : Bool) (files : List RFile) (hne : files ≠ []) :
    (mergeSingleGenFiles [] b).outcome = Except.error MergeFailure.noInputs ∧
    (mergeSingleGenFiles [] b).logs = [] ∧
    (mergeSingleGenFiles files false).outcome =
        Except.error MergeFailure.outputCreateFailed ∧
    (∀ out, (mergeSingleGenFiles files false).outcome ≠ Except.ok out) ∧
    (∃ out, (mergeSingleGenFiles files true).outcome = Except.ok out) ∧
    MergeFailure.noInputs ≠ MergeFailure.outputCreateFailed := by
  obtain ⟨f0, rest, rfl⟩ : ∃ f0 rest, files = f0 :: rest := by
    cases files with
    | nil => exact absurd rfl hne
    | cons a l => exact ⟨a, l, rfl⟩
  refine ⟨rfl, rfl, rfl, by simp [mergeSingleGenFiles], ?_, by decide⟩
  rcases hp : mergeRootKeys (f0 :: rest) f0.keys with ⟨out, msgs⟩
  exact ⟨out, by simp [mergeSingleGenFiles, hp]⟩

/-- C10: on the output-create failure path every opened input handle is
closed, the output is not (it never existed), and nothing is merged; on the
success path every input handle and the output handle are closed. -/
theorem handles_closed_on_return (files : List RFile) (hne : files ≠ []) :
    (mergeSingleGenFiles files false).closedInputs = files.map RFile.fname ∧
    (mergeSingleGenFiles files false).closedOutput = false ∧
    (mergeSingleGenFiles files false).outcome =
        Except.error MergeFailure.outputCreateFailed ∧
    (mergeSingleGenFiles files true).closedInputs = files.map RFile.fname ∧
    (mergeSingleGenFiles files true).closedOutput = true := by
  obtain ⟨f0, rest, rfl⟩ : ∃ f0 rest, files = f0 :: rest := by
    cases files with
    | nil => exact absurd rfl hne
    | cons a l => exact ⟨a, l, rfl⟩
  rcases hp : mergeRootKeys (f0 :: rest) f0.keys with ⟨out, msgs⟩
  refine ⟨rfl, rfl, rfl, ?_, ?_⟩ <;> simp [mergeSingleGenFiles, hp]

/-- C8: an object whose kind is none of the four recognised ones classifies
as the pass-through fallback, raises no error, and merges — in both bodies —
to a verbatim copy of the reference input's object with no log output; the
other inputs are never consulted (the result is the same for any input
set). -/
theorem unknown_kind_passthrough (files files2 : List RFile) (path : List String)
    (nm payload : String) :
    classify (RObject.other nm payload) = RecordKind.passThroughCopy ∧
    mergeObjRoot files (RObject.other nm payload) = (RObject.other nm payload, []) ∧
    mergeObjNested files path (RObject.other nm payload) =
      (RObject.other nm payload, []) ∧
    mergeObjRoot files (RObject.other nm payload) =
      mergeObjRoot files2 (RObject.other nm payload) := by
  refine ⟨rfl, rfl, ?_, rfl⟩
  simp [mergeObjNested]

/-! ## Logging behaviour of the two bodies -/

theorem mergeHistNested_snd (files : List RFile) (path : List String) (h : HistData) :
    (mergeHistNested files path h).2 = [] := by
  unfold mergeHistNested
  rw [histFold_snd]
  simp [collectBinNested_snd]

theorem mergeTreeNested_snd (files : List RFile) (path : List String) (nm : String) :
    (mergeTreeNested files path nm).2 = [] := by
  rw [mergeTreeNested_eq]

theorem mergeObjRoot_dir_snd (files : List RFile) (nm : String) (l : List RObject) :
    (mergeObjRoot files (RObject.dir nm l)).2 =
      subdirMsg nm :: (mergeListNested files [nm] l).2 := by
  rcases hp : mergeListNested files [nm] l with ⟨cs, msgs⟩
  simp [mergeObjRoot, hp]

theorem mergeObjNested_hist_snd (files : List RFile) (path : List String) (h : HistData) :
    (mergeObjNested files path (RObject.hist h)).2 = (mergeHistNested files path h).2 := by
  rcases hp : mergeHistNested files path h with ⟨h2, m⟩
  simp [mergeObjNested, hp]

theorem mergeHistRoot_snd_mem (files : List RFile) (h : HistData) (f : RFile)
    (hf : f ∈ files) (hm : getHist f.keys h.hname = none) :
    histMissingMsg h.hname f.fname ∈ (mergeHistRoot files h).2 := by
  unfold mergeHistRoot
  rw [histFold_snd]
  simp only [List.nil_append]
  rw [List.mem_flatMap]
  refine ⟨(0, 0, 0), ?_, ?_⟩
  · rw [binTriples_mem]
    omega
  · rw [collectBinRoot_eq]
    simp only
    rw [List.mem_map]
    refine ⟨f, ?_, rfl⟩
    rw [List.mem_filter]
    exact ⟨hf, by rw [hm]; rfl⟩

theorem mergeParamRoot_snd_mem (files : List RFile) (nm : String) (f : RFile)
    (hf : f ∈ files) (hm : getParam f.keys nm = none) :
    paramMissingMsg nm f.fname ∈ (mergeParamRoot files nm).2 := by
  rw [mergeParamRoot_eq]
  simp only
  rw [List.mem_map]
  refine ⟨f, ?_, rfl⟩
  rw [List.mem_filter]
  exact ⟨hf, by rw [hm]; rfl⟩

theorem mergeTreeRoot_snd_mem (files : List RFile) (nm : String) (f : RFile)
    (hf : f ∈ files) (hm : getTree f.keys nm = none) :
    treeMissingMsg nm f.fname ∈ (mergeTreeRoot files nm).2 := by
  rw [mergeTreeRoot_eq]
  simp only
  rw [List.mem_map]
  refine ⟨f, ?_, rfl⟩
  rw [List.mem_filter]
  exact ⟨hf, by rw [hm]; rfl⟩

theorem mergeParamNested_snd_mem (files : List RFile) (path : List String) (nm : String)
    (f : RFile) (ks : List RObject) (hf : f ∈ files)
    (hdir : getDirAt f.keys path = some ks) (hm : getParam ks nm = none) :
    paramMissingMsg nm f.fname ∈ (mergeParamNested files path nm).2 := by
  rw [mergeParamNested_eq]
  simp only
  rw [List.mem_map]
  refine ⟨f, ?_, rfl⟩
  rw [List.mem_filter]
  refine ⟨hf, ?_⟩
  rw [hdir]
  simp [hm]

/-! ## Exclusion of missing inputs from the aggregates -/

theorem filterMap_filter_isSome {α : Type} {β : Type} {γ : Type}
    (l : List α) (o : α → Option β) (g : β → γ) :
    (l.filter (fun x => (o x).isSome)).filterMap (fun x => (o x).map g) =
      l.filterMap (fun x => (o x).map g) := by
  induction l with
  | nil => rfl
  | cons x rest ih =>
    cases hx : o x with
    | none => simp [hx, ih]
    | some b => simp [hx, ih]

theorem rowsOf_none : rowsOf none = ([] : List ℚ) := rfl

theorem flatMap_rowsOf_filter (l : List RFile) (o : RFile → Option TreeData) :
    (l.filter (fun x => (o x).isSome)).flatMap (fun x => rowsOf (o x)) =
      l.flatMap (fun x => rowsOf (o x)) := by
  induction l with
  | nil => rfl
  | cons x rest ih =>
    cases hx : o x with
    | none => simp [hx, ih, rowsOf_none]
    | some t => simp [hx, ih]

/-! ## A nested miss is silent: concrete run -/

/-- A one-bin reference histogram living in subdirectory `d` of input 0. -/
noncomputable def cexHist : HistData :=
  ⟨"h1", 1, 1, 1, [0, 1], [], [], fun _ _ _ => 1, fun _ _ _ => 0⟩

/-- The reference input: subdirectory `d` containing the histogram. -/
noncomputable def cexFile0 : RFile :=
  ⟨"in0", [RObject.dir "d" [RObject.hist cexHist]]⟩

/-- A non-reference input whose subdirectory `d` lacks the histogram. -/
noncomputable def cexFile1 : RFile :=
  ⟨"in1", [RObject.dir "d" []]⟩

/-- C6 counterexample: the histogram `h1` nested in directory `d` is present
in the reference input and missing from the non-reference input `in1`, yet
the complete merge of the containing directory record logs only the
subdirectory announcement — the missing occurrence is never reported
through the logging channel. -/
theorem nested_missing_not_logged_cex :
    nestedGetHist cexFile0 ["d"] "h1" = some cexHist ∧
    nestedGetHist cexFile1 ["d"] "h1" = none ∧
    (mergeObjRoot [cexFile0, cexFile1] (RObject.dir "d" [RObject.hist cexHist])).2 =
      [subdirMsg "d"] ∧
    histMissingMsg "h1" "in1" ∉
      (mergeObjRoot [cexFile0, cexFile1] (RObject.dir "d" [RObject.hist cexHist])).2 := by
  have h4 : (mergeListNested [cexFile0, cexFile1] ["d"] [RObject.hist cexHist]).2 = [] := by
    rw [mergeListNested_cons, mergeObjNested_hist_snd, mergeHistNested_snd]
    simp [mergeListNested]
  have h3 : (mergeObjRoot [cexFile0, cexFile1]
      (RObject.dir "d" [RObject.hist cexHist])).2 = [subdirMsg "d"] := by
    rw [mergeObjRoot_dir_snd, h4]
  refine ⟨rfl, rfl, h3, ?_⟩
  rw [h3]
  decide

/-- C6 (amended): a record missing from a non-reference input is always a
recoverable condition — the merge continues and that input is excluded from
the record's aggregate (bin sample, parameter sum, row concatenation) — and
the miss is reported by the root-level body for histograms, parameters and
trees, and by the nested body for a parameter whose containing directory
exists; the nested body's histogram and tree merges, and any record whose
containing directory is missing, are excluded silently (no log output). -/
theorem missing_input_excluded_and_reported (files : List RFile) (f : RFile)
    (h : HistData) (pnm tnm : String) (path : List String) (ks : List RObject)
    (hf : f ∈ files)
    (hmh : getHist f.keys h.hname = none)
    (hmp : getParam f.keys pnm = none)
    (hmt : getTree f.keys tnm = none)
    (hdir : getDirAt f.keys path = some ks)
    (hnp : getParam ks pnm = none) :
    histMissingMsg h.hname f.fname ∈ (mergeHistRoot files h).2 ∧
    paramMissingMsg pnm f.fname ∈ (mergeParamRoot files pnm).2 ∧
    treeMissingMsg tnm f.fname ∈ (mergeTreeRoot files tnm).2 ∧
    paramMissingMsg pnm f.fname ∈ (mergeParamNested files path pnm).2 ∧
    (mergeHistNested files path h).2 = [] ∧
    (mergeTreeNested files path tnm).2 = [] ∧
    (∀ a b c, rootBinVals files h.hname a b c =
        rootBinVals (files.filter (fun g => (getHist g.keys h.hname).isSome))
          h.hname a b c) ∧
    (mergeParamRoot files pnm).1.val =
        (mergeParamRoot (files.filter (fun g => (getParam g.keys pnm).isSome)) pnm).1.val ∧
    (mergeTreeRoot files tnm).1.rows =
        (mergeTreeRoot (files.filter (fun g => (getTree g.keys tnm).isSome)) tnm).1.rows := by
  refine ⟨mergeHistRoot_snd_mem files h f hf hmh,
          mergeParamRoot_snd_mem files pnm f hf hmp,
          mergeTreeRoot_snd_mem files tnm f hf hmt,
          mergeParamNested_snd_mem files path pnm f ks hf hdir hnp,
          mergeHistNested_snd files path h,
          mergeTreeNested_snd files path tnm,
          ?_, ?_, ?_⟩
  · intro a b c
    unfold rootBinVals
    rw [filterMap_filter_isSome]
  · rw [mergeParamRoot_eq, mergeParamRoot_eq]
    simp only
    rw [filterMap_filter_isSome]
  · rw [mergeTreeRoot_eq, mergeTreeRoot_eq]
    simp only
    rw [flatMap_rowsOf_filter]

/-! ## Root vs nested body: output equivalence -/

theorem histFold_fst_congr (c1 c2 : Nat → Nat → Nat → List ℚ × List String)
    (hc : ∀ i j k, (c1 i j k).1 = (c2 i j k).1) (ts : List (Nat × Nat × Nat)) :
    ∀ (acc1 acc2 : HistData × List String), acc1.1 = acc2.1 →
      (ts.foldl (histStep c1) acc1).1 = (ts.foldl (histStep c2) acc2).1 := by
  induction ts with
  | nil => intro acc1 acc2 h; exact h
  | cons t rest ih =>
    intro acc1 acc2 h
    rw [List.foldl_cons, List.foldl_cons]
    apply ih
    obtain ⟨i, j, k⟩ := t
    unfold histStep
    by_cases hv : (c2 i j k).1 = []
    · have hv1 : (c1 i j k).1 = [] := by rw [hc i j k]; exact hv
      simp [hv1, hv, h]
    · have hv1 : ¬(c1 i j k).1 = [] := by rw [hc i j k]; exact hv
      simp [hv1, hv, h, hc i j k]

theorem collectBinNested_nil_fst (files : List RFile) (nm : String) (i j k : Nat) :
    (collectBinNested files [] nm i j k).1 = (collectBinRoot files nm i j k).1 := by
  rw [collectBinNested_fst_vals, collectBinRoot_fst]
  unfold nestedBinVals rootBinVals
  apply List.filterMap_congr
  intro f hf
  rfl

theorem mergeHistNested_nil_fst (files : List RFile) (h : HistData) :
    (mergeHistNested files [] h).1 = (mergeHistRoot files h).1 := by
  unfold mergeHistNested mergeHistRoot
  exact histFold_fst_congr _ _
    (fun i j k => collectBinNested_nil_fst files h.hname i j k) _ _ _ rfl

theorem mergeObjNested_nil (files : List RFile) (o : RObject) :
    (mergeObjNested files [] o).1 = (mergeObjRoot files o).1 := by
  cases o with
  | hist h =>
    rcases hp : mergeHistNested files [] h with ⟨h2, m2⟩
    rcases hq : mergeHistRoot files h with ⟨h3, m3⟩
    have he : h2 = h3 := by
      have h0 := mergeHistNested_nil_fst files h
      rw [hp, hq] at h0
      exact h0
    simp [mergeObjNested, mergeObjRoot, hp, hq, he]
  | param p =>
    rcases hp : mergeParamNested files [] p.pname with ⟨p2, m2⟩
    rcases hq : mergeParamRoot files p.pname with ⟨p3, m3⟩
    have he : p2 = p3 := by
      have h0 : (mergeParamNested files [] p.pname).1 = (mergeParamRoot files p.pname).1 := by
        rw [mergeParamNested_eq, mergeParamRoot_eq]
        rfl
      rw [hp, hq] at h0
      exact h0
    simp [mergeObjNested, mergeObjRoot, hp, hq, he]
  | tree t =>
    rcases hp : mergeTreeNested files [] t.tname with ⟨t2, m2⟩
    rcases hq : mergeTreeRoot files t.tname with ⟨t3, m3⟩
    have he : t2 = t3 := by
      have h0 : (mergeTreeNested files [] t.tname).1 = (mergeTreeRoot files t.tname).1 := by
        rw [mergeTreeNested_eq, mergeTreeRoot_eq]
        rfl
      rw [hp, hq] at h0
      exact h0
    simp [mergeObjNested, mergeObjRoot, hp, hq, he]
  | dir nm contents =>
    rcases hp : mergeListNested files [nm] contents with ⟨cs, ms⟩
    simp [mergeObjNested, mergeObjRoot, hp]
  | other nm payload =>
    simp [mergeObjNested, mergeObjRoot]

theorem getDirAt_append (p : List String) : ∀ (keys : List RObject) (q : List String),
    getDirAt keys (p ++ q) = (getDirAt keys p).bind (fun ks => getDirAt ks q) := by
  induction p with
  | nil => intro keys q; rfl
  | cons d rest ih =>
    intro keys q
    rw [List.cons_append]
    cases hd : findSubDir keys d with
    | none => simp [getDirAt, hd]
    | some sub => simp [getDirAt, hd, ih]

/-- The input set the nested body effectively works on at a source path:
each file replaced by its sub-directory contents there. -/
def subFiles (files : List RFile) (sub : RFile → List RObject) : List RFile :=
  files.map (fun f => ⟨f.fname, sub f⟩)

theorem getDirAt_shift (f : RFile) (skeys : List RObject) (path q : List String)
    (hf : getDirAt f.keys path = some skeys) :
    getDirAt f.keys (path ++ q) = getDirAt skeys q := by
  rw [getDirAt_append, hf]
  rfl

theorem flatMap_map_own {α : Type} {β : Type} {γ : Type}
    (l : List α) (m : α → β) (g : β → List γ) :
    (l.map m).flatMap g = l.flatMap (fun x => g (m x)) := by
  induction l with
  | nil => rfl
  | cons x rest ih => simp [ih]

theorem flatMap_congr_own {α : Type} {β : Type} (l : List α) (f g : α → List β)
    (h : ∀ x ∈ l, f x = g x) : l.flatMap f = l.flatMap g := by
  induction l with
  | nil => rfl
  | cons x rest ih =>
    rw [List.flatMap_cons, List.flatMap_cons, h x (List.mem_cons_self x rest),
      ih (fun y hy => h y (List.mem_cons_of_mem x hy))]

theorem nestedBinVals_shift (files : List RFile) (sub : RFile → List RObject)
    (path q : List String) (nm : String) (a b c : Nat)
    (hs : ∀ f ∈ files, getDirAt f.keys path = some (sub f)) :
    nestedBinVals files (path ++ q) nm a b c =
      nestedBinVals (subFiles files sub) q nm a b c := by
  unfold nestedBinVals subFiles
  rw [List.filterMap_map]
  apply List.filterMap_congr
  intro f hf
  have hsh := getDirAt_shift f (sub f) path q (hs f hf)
  simp [nestedGetHist, Function.comp, hsh]

theorem mergeHistNested_shift_fst (files : List RFile) (sub : RFile → List RObject)
    (path q : List String) (h : HistData)
    (hs : ∀ f ∈ files, getDirAt f.keys path = some (sub f)) :
    (mergeHistNested files (path ++ q) h).1 =
      (mergeHistNested (subFiles files sub) q h).1 := by
  unfold mergeHistNested
  exact histFold_fst_congr _ _
    (fun i j k => by
      rw [collectBinNested_fst_vals, collectBinNested_fst_vals]
      exact nestedBinVals_shift files sub path q h.hname i j k hs) _ _ _ rfl

theorem mergeParamNested_shift_fst (files : List RFile) (sub : RFile → List RObject)
    (path q : List String) (nm : String)
    (hs : ∀ f ∈ files, getDirAt f.keys path = some (sub f)) :
    (mergeParamNested files (path ++ q) nm).1 =
      (mergeParamNested (subFiles files sub) q nm).1 := by
  have hsum : files.filterMap (fun f => (nestedGetParam f (path ++ q) nm).map castGetValD)
      = (subFiles files sub).filterMap (fun f => (nestedGetParam f q nm).map castGetValD) := by
    unfold subFiles
    rw [List.filterMap_map]
    apply List.filterMap_congr
    intro f hf
    have hsh := getDirAt_shift f (sub f) path q (hs f hf)
    simp [nestedGetParam, Function.comp, hsh]
  rw [mergeParamNested_eq, mergeParamNested_eq, hsum]

theorem mergeTreeNested_shift_fst (files : List RFile) (sub : RFile → List RObject)
    (path q : List String) (nm : String)
    (hs : ∀ f ∈ files, getDirAt f.keys path = some (sub f)) :
    (mergeTreeNested files (path ++ q) nm).1 =
      (mergeTreeNested (subFiles files sub) q nm).1 := by
  have hrows : files.flatMap (fun f => rowsOf (nestedGetTree f (path ++ q) nm))
      = (subFiles files sub).flatMap (fun f => rowsOf (nestedGetTree f q nm)) := by
    unfold subFiles
    rw [flatMap_map_own]
    apply flatMap_congr_own
    intro f hf
    have hsh := getDirAt_shift f (sub f) path q (hs f hf)
    simp [nestedGetTree, hsh]
  rw [mergeTreeNested_eq, mergeTreeNested_eq, hrows]

mutual

theorem mergeObjNested_shift (files : List RFile) (sub : RFile → List RObject)
    (path : List String) (hs : ∀ f ∈ files, getDirAt f.keys path = some (sub f)) :
    ∀ (q : List String) (o : RObject),
    (mergeObjNested files (path ++ q) o).1 = (mergeObjNested (subFiles files sub) q o).1
  | q, RObject.hist h => by
    rcases hp : mergeHistNested files (path ++ q) h with ⟨h2, m2⟩
    rcases hq : mergeHistNested (subFiles files sub) q h with ⟨h3, m3⟩
    have he : h2 = h3 := by
      have h0 := mergeHistNested_shift_fst files sub path q h hs
      rw [hp, hq] at h0
      exact h0
    simp [mergeObjNested, hp, hq, he]
  | q, RObject.param p => by
    rcases hp : mergeParamNested files (path ++ q) p.pname with ⟨p2, m2⟩
    rcases hq : mergeParamNested (subFiles files sub) q p.pname with ⟨p3, m3⟩
    have he : p2 = p3 := by
      have h0 := mergeParamNested_shift_fst files sub path q p.pname hs
      rw [hp, hq] at h0
      exact h0
    simp [mergeObjNested, hp, hq, he]
  | q, RObject.tree t => by
    rcases hp : mergeTreeNested files (path ++ q) t.tname with ⟨t2, m2⟩
    rcases hq : mergeTreeNested (subFiles files sub) q t.tname with ⟨t3, m3⟩
    have he : t2 = t3 := by
      have h0 := mergeTreeNested_shift_fst files sub path q t.tname hs
      rw [hp, hq] at h0
      exact h0
    simp [mergeObjNested, hp, hq, he]
  | q, RObject.dir nm contents => by
    rcases hp : mergeListNested files (path ++ (q ++ [nm])) contents with ⟨cs, ms⟩
    rcases hq : mergeListNested (subFiles files sub) (q ++ [nm]) contents with ⟨cs2, ms2⟩
    have he : cs = cs2 := by
      have h0 := mergeListNested_shift files sub path hs (q ++ [nm]) contents
      rw [hp, hq] at h0
      exact h0
    simp [mergeObjNested, hp, hq, he]
  | q, RObject.other nm payload => by
    simp [mergeObjNested]

theorem mergeListNested_shift (files : List RFile) (sub : RFile → List RObject)
    (path : List String) (hs : ∀ f ∈ files, getDirAt f.keys path = some (sub f)) :
    ∀ (q : List String) (l : List RObject),
    (mergeListNested files (path ++ q) l).1 = (mergeListNested (subFiles files sub) q l).1
  | q, [] => by simp [mergeListNested]
  | q, o :: rest => by
    rw [mergeListNested_cons, mergeListNested_cons]
    rw [mergeObjNested_shift files sub path hs q o,
      mergeListNested_shift files sub path hs q rest]

end

/-- C9: the root-level merge body and the nested-directory merge body are
output-equivalent: whenever the nested body at source path `path` sees in
each input exactly the directory contents `sub f`, its merged output record
for any reference object equals the root body's output record on the input
set whose root keys are those contents — for every record kind, so the two
near-duplicate traversal bodies can be unified without changing any merged
output (only log output differs). -/
theorem root_nested_equivalence (files : List RFile) (sub : RFile → List RObject)
    (path : List String) (hs : ∀ f ∈ files, getDirAt f.keys path = some (sub f))
    (o : RObject) :
    (mergeObjNested files path o).1 = (mergeObjRoot (subFiles files sub) o).1 := by
  have h1 := mergeObjNested_shift files sub path hs [] o
  rw [List.append_nil] at h1
  rw [h1, mergeObjNested_nil]

/-! ## Concrete witnesses -/

/-- A one-bin reference histogram used in the concrete witnesses. -/
noncomputable def wHist (v : ℚ) : HistData :=
  ⟨"wh", 1, 1, 1, [0, 1], [], [], fun _ _ _ => v, fun _ _ _ => 0⟩

/-- A concrete input holding the witness histogram with content `2`. -/
noncomputable def wFileA : RFile := ⟨"fA", [RObject.hist (wHist 2)]⟩

/-- A concrete input holding the witness histogram with content `4`. -/
noncomputable def wFileB : RFile := ⟨"fB", [RObject.hist (wHist 4)]⟩

/-- An input holding the witness histogram only inside subdirectory `d`. -/
noncomputable def wFileC : RFile := ⟨"fC", [RObject.dir "d" [RObject.hist (wHist 2)]]⟩

/-- A second input holding the witness histogram only inside `d`. -/
noncomputable def wFileD : RFile := ⟨"fD", [RObject.dir "d" [RObject.hist (wHist 4)]]⟩

theorem hist_bin_mean_stddev_witness :
    rootBinVals [wFileC, wFileD] "wh" 0 0 0 = [] ∧
    nestedBinVals [wFileC, wFileD] ["d"] "wh" 0 0 0 ≠ [] ∧
    (mergeHistNested [wFileC, wFileD] ["d"] (wHist 2)).1.content 0 0 0 =
      qAccumulate (nestedBinVals [wFileC, wFileD] ["d"] "wh" 0 0 0) /
        ((nestedBinVals [wFileC, wFileD] ["d"] "wh" 0 0 0).length : ℚ) ∧
    (nestedBinVals [wFileC, wFileD] ["d"] "wh" 0 0 0).length =
      ([wFileC, wFileD].filter (fun f => (nestedGetHist f ["d"] "wh").isSome)).length :=
  ⟨by decide, by decide,
   ((hist_bin_mean_stddev [wFileC, wFileD] (wHist 2) ["d"] 0 0 0 (by decide) (by decide)
      (by decide)).2.2.1 (by decide)).1,
   (hist_bin_mean_stddev [wFileC, wFileD] (wHist 2) ["d"] 0 0 0 (by decide) (by decide)
      (by decide)).2.2.2⟩

theorem driver_failure_modes_witness :
    (mergeSingleGenFiles ([] : List RFile) true).outcome =
        Except.error MergeFailure.noInputs ∧
    (mergeSingleGenFiles [wFileA] false).outcome =
        Except.error MergeFailure.outputCreateFailed :=
  ⟨(driver_failure_modes true [wFileA] (List.cons_ne_nil _ _)).1,
   (driver_failure_modes true [wFileA] (List.cons_ne_nil _ _)).2.2.1⟩

theorem missing_input_excluded_and_reported_witness :
    histMissingMsg "h1" "in1" ∈ (mergeHistRoot [cexFile0, cexFile1] cexHist).2 ∧
    (mergeHistNested [cexFile0, cexFile1] ["d"] cexHist).2 = [] :=
  ⟨(missing_input_excluded_and_reported [cexFile0, cexFile1] cexFile1 cexHist "p" "t"
      ["d"] [] (List.mem_cons_of_mem _ (List.mem_cons_self _ _)) rfl rfl rfl rfl rfl).1,
   (missing_input_excluded_and_reported [cexFile0, cexFile1] cexFile1 cexHist "p" "t"
      ["d"] [] (List.mem_cons_of_mem _ (List.mem_cons_self _ _)) rfl rfl rfl rfl rfl).2.2.2.2.1⟩

theorem empty_bin_zero_default_witness :
    (mergeHistRoot [wFileA, wFileB] cexHist).1.content 0 0 0 = 0 ∧
    (mergeHistRoot [wFileA, wFileB] cexHist).1.binErr 0 0 0 = 0 :=
  ⟨(empty_bin_zero_default [wFileA, wFileB] cexHist ["d"] 0 0 0
      (by
        intro f hf
        simp only [List.mem_cons, List.not_mem_nil, or_false] at hf
        rcases hf with rfl | rfl
        · rfl
        · rfl)
      (by
        intro f hf
        simp only [List.mem_cons, List.not_mem_nil, or_false] at hf
        rcases hf with rfl | rfl
        · rfl
        · rfl)).1,
   (empty_bin_zero_default [wFileA, wFileB] cexHist ["d"] 0 0 0
      (by
        intro f hf
        simp only [List.mem_cons, List.not_mem_nil, or_false] at hf
        rcases hf with rfl | rfl
        · rfl
        · rfl)
      (by
        intro f hf
        simp only [List.mem_cons, List.not_mem_nil, or_false] at hf
        rcases hf with rfl | rfl
        · rfl
        · rfl)).2.1⟩

theorem root_nested_equivalence_witness :
    (mergeObjNested [cexFile0] ["d"] (RObject.hist cexHist)).1 =
      (mergeObjRoot (subFiles [cexFile0] (fun _ => [RObject.hist cexHist]))
        (RObject.hist cexHist)).1 :=
  root_nested_equivalence [cexFile0] (fun _ => [RObject.hist cexHist]) ["d"]
    (by
      intro f hf
      simp only [List.mem_cons, List.not_mem_nil, or_false] at hf
      subst hf
      rfl)
    (RObject.hist cexHist)

theorem output_paths_match_reference_amended_witness :
    rootWritePaths cexFile0.keys = pathsOfList [] cexFile0.keys ∧
    (mergeSingleGenFiles [cexFile0] true).outcome =
      Except.ok (mergeRootKeys [cexFile0] cexFile0.keys).1 :=
  ⟨(output_paths_match_reference_amended cexFile0 []
      (by simp [rootSafe, cursorSafe, cexFile0, cexHist])).2.2.1,
   (output_paths_match_reference_amended cexFile0 []
      (by simp [rootSafe, cursorSafe, cexFile0, cexHist])).1⟩

theorem handles_closed_on_return_witness :
    (mergeSingleGenFiles [wFileA] false).closedInputs = ["fA"] ∧
    (mergeSingleGenFiles [wFileA] true).closedOutput = true :=
  ⟨(handles_closed_on_return [wFileA] (List.cons_ne_nil _ _)).1,
   (handles_closed_on_return [wFileA] (List.cons_ne_nil _ _)).2.2.2.2⟩

end PairGenMerge
